import Mathlib

set_option maxRecDepth 8000

/-!
Verification of the `blog_system` HTTP core (request parsing, routing,
templating, sanitizing, static files, dispatch metrics).

Conventions of the shallow embedding:
* Python `str` values are modeled as `List Char` (`Str` below); `bytes`
  values are modeled as `List Nat` with entries below 256.
* Python `dict`s are modeled as insertion-ordered association lists with
  unique keys; `d[k] = v` is `dictInsert` (replaces in place or appends),
  iteration is list order, `d.get` is `dictGet`.
* All definitions are transcribed from `blog_system`'s source files
  (`router.py`, `http_types.py`, `handlers.py`, `server.py`); each
  definition's doc comment names the Python symbol it embeds.
-/

abbrev Str := List Char

namespace Util

/-- The ASCII whitespace characters stripped by Python's `str.strip()`. -/
def isPyWs (c : Char) : Bool :=
  c = ' ' || c = '\t' || c = '\n' || c = '\r' || c = '\x0b' || c = '\x0c'

/-- Remove elements satisfying `p` from the end of a list. -/
def dropWhileEnd (p : Char → Bool) (s : Str) : Str :=
  (s.reverse.dropWhile p).reverse

/-- Python `str.strip()` (whitespace from both ends). -/
def pystrip (s : Str) : Str :=
  dropWhileEnd isPyWs (s.dropWhile isPyWs)

/-- Python `str.strip(c)` for a single-character argument. -/
def stripChar (c : Char) (s : Str) : Str :=
  dropWhileEnd (fun x => x = c) (s.dropWhile (fun x => x = c))

/-- Python `str.lstrip(c)` for a single-character argument. -/
def lstripChar (c : Char) (s : Str) : Str :=
  s.dropWhile (fun x => x = c)

/-- ASCII lower-casing of one character, as Python `str.lower` does on ASCII. -/
def lowerChar (c : Char) : Char :=
  if 'A' ≤ c ∧ c ≤ 'Z' then Char.ofNat (c.toNat + 32) else c

/-- ASCII upper-casing of one character, as Python `str.upper` does on ASCII. -/
def upperChar (c : Char) : Char :=
  if 'a' ≤ c ∧ c ≤ 'z' then Char.ofNat (c.toNat - 32) else c

/-- Python `str.lower()` on ASCII data. -/
def pylower (s : Str) : Str := s.map lowerChar

/-- Python `str.upper()` on ASCII data. -/
def pyupper (s : Str) : Str := s.map upperChar

section Generic

variable {α : Type} [DecidableEq α]

/-- Python's substring test `pat in s` (also used for `bytes`). -/
def occursIn (pat : List α) : List α → Bool
  | [] => pat.isEmpty
  | a :: rest => pat.isPrefixOf (a :: rest) || occursIn pat rest

/-- Index of the leftmost occurrence of `pat` (Python `str.find` / `bytes.find`). -/
def findSub (pat : List α) : List α → Option Nat
  | [] => if pat.isEmpty then some 0 else none
  | a :: rest =>
    if pat.isPrefixOf (a :: rest) then some 0
    else (findSub pat rest).map (· + 1)

/-- Worker for `pysplit`; the fuel only serves structural recursion and is
always sufficient (each step consumes at least `sep.length ≥ 1` elements). -/
def pysplitGo (sep : List α) : Nat → List α → List (List α)
  | 0, s => [s]
  | fuel + 1, s =>
    match findSub sep s with
    | none => [s]
    | some i => s.take i :: pysplitGo sep fuel (s.drop (i + sep.length))

/-- Python `s.split(sep)` for a non-empty separator (empty separator returns `[s]`;
the source never splits on an empty separator). -/
def pysplit (sep : List α) (s : List α) : List (List α) :=
  if sep.isEmpty then [s] else pysplitGo sep (s.length + 1) s

/-- Python `s.partition(sep)`: text before the first occurrence, a flag whether
the separator occurred, text after it. -/
def pypartition (sep : List α) (s : List α) : List α × Bool × List α :=
  match findSub sep s with
  | none => (s, false, [])
  | some i => (s.take i, true, s.drop (i + sep.length))

/-- Python `s.split(sep, 1)`: split at the first occurrence only. -/
def pysplit1 (sep : List α) (s : List α) : List (List α) :=
  match findSub sep s with
  | none => [s]
  | some i => [s.take i, s.drop (i + sep.length)]

end Generic

/-- Insertion of `d[k] = v` into an insertion-ordered dict. -/
def dictInsert {β : Type} (m : List (Str × β)) (k : Str) (v : β) : List (Str × β) :=
  match m with
  | [] => [(k, v)]
  | (k', v') :: rest => if k' = k then (k, v) :: rest else (k', v') :: dictInsert rest k v

/-- Python `d.get(k)` on an insertion-ordered dict with unique keys. -/
def dictGet {β : Type} (m : List (Str × β)) (k : Str) : Option β :=
  match m with
  | [] => none
  | (k', v) :: rest => if k' = k then some v else dictGet rest k

/-- Python `d.get(k, default)`. -/
def dictGetD {β : Type} (m : List (Str × β)) (k : Str) (d : β) : β :=
  (dictGet m k).getD d

/-- Python `d.pop(k, None)`'s effect on the dict (the binding is removed). -/
def dictErase {β : Type} (m : List (Str × β)) (k : Str) : List (Str × β) :=
  m.filter (fun p => decide (p.1 ≠ k))

/-- Python `d.setdefault(k, v)`'s effect on the dict. -/
def dictSetdefault {β : Type} (m : List (Str × β)) (k : Str) (v : β) : List (Str × β) :=
  if (dictGet m k).isSome then m else m ++ [(k, v)]

end Util

namespace Router

open Util

/-- One entry of `Router.routes` (router.py, `add_route`): the stored path,
upper-cased method, handler and precomputed segments.  Handlers are opaque to
the router, so they are a type parameter. -/
structure RouteEntry (H : Type) where
  path : Str
  method : Str
  handler : H
  segments : List Str

/-- router.py `RouteMatch`. -/
structure RouteMatch (H : Type) where
  handler : H
  params : List (Str × Str)
deriving DecidableEq

/-- router.py `Router` (just the ordered route list). -/
structure Router (H : Type) where
  routes : List (RouteEntry H)

/-- router.py `Router._split_path`: `"/"` has no segments, otherwise strip `/`
from both ends, split on `/` and drop empty segments. -/
def split_path (path : Str) : List Str :=
  if path = "/".data then []
  else (pysplit ['/'] (stripChar '/' path)).filter (fun seg => ¬ seg.isEmpty)

/-- The zip loop of router.py `Router._match_segments`: a `<name>` segment
binds, other segments must be equal.  The Python version mutates a `params`
dict and returns a bool; the caller only reads `params` on success, so the
`Option` result is observationally the same. -/
def matchLoop (params : List (Str × Str)) :
    List Str → List Str → Option (List (Str × Str))
  | [], _ => some params
  | _ :: _, [] => some params
  | r :: rs, q :: qs =>
    if r.head? = some '<' ∧ r.getLast? = some '>' then
      matchLoop (dictInsert params ((r.drop 1).dropLast) q) rs qs
    else if r = q then matchLoop params rs qs
    else none

/-- router.py `Router._match_segments`: fail unless the segment counts are
equal, then compare left to right. -/
def match_segments (routeSegs reqSegs : List Str) : Option (List (Str × Str)) :=
  if routeSegs.length ≠ reqSegs.length then none
  else matchLoop [] routeSegs reqSegs

/-- router.py `Router.add_route`: append an entry with the method upper-cased
and the path pre-split. -/
def add_route {H : Type} (router : Router H) (path method : Str) (handler : H) :
    Router H :=
  { routes := router.routes ++
      [{ path := path, method := pyupper method, handler := handler,
         segments := split_path path }] }

/-- The loop of router.py `Router.resolve`. -/
def resolveLoop {H : Type} (reqSegs : List Str) (method : Str) :
    List (RouteEntry H) → Option (RouteMatch H)
  | [] => none
  | r :: rest =>
    if r.method = pyupper method then
      match match_segments r.segments reqSegs with
      | some ps => some { handler := r.handler, params := ps }
      | none => resolveLoop reqSegs method rest
    else resolveLoop reqSegs method rest

/-- router.py `Router.resolve`: first route (in registration order) whose
method matches case-insensitively and whose segments match. -/
def resolve {H : Type} (router : Router H) (path method : Str) :
    Option (RouteMatch H) :=
  resolveLoop (split_path path) method router.routes

/-- The empty router. -/
def empty {H : Type} : Router H := { routes := [] }

end Router

namespace HttpTypes

open Util

/-- http_types.py `HTTPRequest.get_cookies`, as a pure function of the
`Cookie` header value (`""` when the header is absent): split on `;`, split
each piece with `=` at the first `=`, strip whitespace from name and value. -/
def get_cookies (cookieHeader : Str) : List (Str × Str) :=
  if cookieHeader.isEmpty then []
  else
    (pysplit [';'] cookieHeader).foldl
      (fun cookies part =>
        if occursIn ['='] part then
          match pysplit1 ['='] part with
          | [name, value] => dictInsert cookies (pystrip name) (pystrip value)
          | _ => cookies
        else cookies) []

/-- http_types.py `HTTPResponse`: status code, reason, body bytes, insertion
ordered headers.  Response bodies are UTF-8 encoded from ASCII text in every
claim; they are modeled at the character level. -/
structure HTTPResponse where
  status_code : Nat
  reason : Str
  body : Str
  headers : List (Str × Str)
deriving DecidableEq

/-- Python `str(n)` for a natural number. -/
def natToStr (n : Nat) : Str := (toString n).data

end HttpTypes

namespace TemplateRenderer

open Util HttpTypes

/-- Worker for `replaceAll`; the fuel only serves structural recursion and is
always sufficient (each step consumes at least one element). -/
def replaceAllGo (pat rep : Str) : Nat → Str → Str
  | 0, s => s
  | fuel + 1, s =>
    match s with
    | [] => []
    | c :: rest =>
      if pat.isPrefixOf (c :: rest) ∧ ¬ pat.isEmpty then
        rep ++ replaceAllGo pat rep fuel ((c :: rest).drop pat.length)
      else c :: replaceAllGo pat rep fuel rest

/-- Python `s.replace(pat, rep)` for a non-empty pattern: replace every
non-overlapping occurrence, scanning left to right.  (`_format_template` only
ever passes patterns of the shape `{key}`, which are never empty; for an empty
pattern this model returns `s` unchanged.) -/
def replaceAll (s pat rep : Str) : Str :=
  replaceAllGo pat rep (s.length + 1) s

/-- handlers.py `TemplateRenderer.RAW_KEYS`.  The source stores these in a
Python `set`, whose iteration order is unspecified; this embedding fixes the
order of the source listing.  The order is only observable through
`setdefault`-inserted defaults, which are all the empty string. -/
def RAW_KEYS : List Str :=
  ["main_content".data, "navbar_links".data, "header_actions".data,
   "extra_css_links".data, "extra_js_scripts".data, "message_block".data,
   "posts_html".data, "subscription_posts_html".data,
   "subscription_list_html".data, "comment_list_html".data,
   "comment_form_html".data, "auth_action".data, "authored_posts_html".data,
   "favorite_posts_html".data, "subscriptions_html".data, "contacts_html".data,
   "conversation_html".data, "permission_public_selected".data,
   "permission_vip_selected".data, "permission_password_selected".data,
   "permission_private_selected".data, "allow_comments_checked".data,
   "is_encrypted_checked".data, "profile_actions_html".data,
   "create_button_html".data, "delete_button_html".data,
   "post_content_html".data, "author_action_items_html".data,
   "post_feedback_html".data, "bio_html".data, "profile_feedback_html".data,
   "profile_edit_section_html".data]

/-- The keys popped from the content context in handlers.py
`TemplateRenderer.render` (the tuple in the `for key in (...)` loop). -/
def LAYOUT_ONLY_KEYS : List Str :=
  ["_layout".data, "navbar_links".data, "header_actions".data,
   "extra_css_links".data, "extra_js_scripts".data, "body_class".data,
   "page_description".data, "current_year".data]

/-- handlers.py `TemplateRenderer._format_template`: one whole-text
`str.replace` per context item, in dict iteration order.  Context values are
modeled as already stringified (`str(value)` / `None` to `""` in the source). -/
def _format_template (template : Str) (context : List (Str × Str)) : Str :=
  context.foldl
    (fun result kv => replaceAll result ('{' :: (kv.1 ++ ['}'])) kv.2) template

/-- handlers.py `TemplateRenderer._template_not_found_response`. -/
def _template_not_found_response (template_name : Str) : HTTPResponse :=
  let message := "Template ".data ++ template_name ++ " not found".data
  { status_code := 500, reason := "Internal Server Error".data, body := message,
    headers := [("Content-Type".data, "text/plain; charset=utf-8".data),
                ("Content-Length".data, natToStr message.length),
                ("Connection".data, "close".data)] }

/-- handlers.py `TemplateRenderer._missing_placeholder_response`.  In the
source this is only reachable from `except KeyError` handlers around
`_format_template`; `str.replace` never raises `KeyError`, so it is dead code
(central to claim C3). -/
def _missing_placeholder_response (template_name missing : Str) : HTTPResponse :=
  let message := "模板 ".data ++ template_name ++ " 缺少占位符：".data ++ missing
  { status_code := 500, reason := "Internal Server Error".data, body := message,
    headers := [("Content-Type".data, "text/plain; charset=utf-8".data),
                ("Content-Length".data, natToStr message.length),
                ("Connection".data, "close".data)] }

/-- handlers.py `TemplateRenderer.render`.  `templates` models the template
root directory (`_load_template`: name to file text, `none` for a missing
file); `currentYear` models `str(datetime.utcnow().year)`, the default used
for the `current_year` layout key.  The `except KeyError` branches of the
source cannot fire (see `_missing_placeholder_response`), so rendering always
reaches the 200 response once both templates load. -/
def render (templates : Str → Option Str) (currentYear : Str)
    (template_name : Str) (context : List (Str × Str)) : HTTPResponse :=
  let layout_name := dictGetD context "_layout".data "layout.html".data
  match templates template_name with
  | none => _template_not_found_response template_name
  | some main_template =>
    match templates layout_name with
    | none => _template_not_found_response layout_name
    | some layout_template =>
      let content_context :=
        RAW_KEYS.foldl (fun m k => dictSetdefault m k [])
          (LAYOUT_ONLY_KEYS.foldl dictErase context)
      let main_content := _format_template main_template content_context
      let layout_context : List (Str × Str) :=
        [("page_title".data, dictGetD context "page_title".data "NeoBlog".data),
         ("page_description".data, dictGetD context "page_description".data []),
         ("navbar_links".data, dictGetD context "navbar_links".data []),
         ("header_actions".data, dictGetD context "header_actions".data []),
         ("main_content".data, main_content),
         ("extra_css_links".data, dictGetD context "extra_css_links".data []),
         ("extra_js_scripts".data, dictGetD context "extra_js_scripts".data []),
         ("body_class".data, dictGetD context "body_class".data []),
         ("current_year".data, dictGetD context "current_year".data currentYear)]
      let rendered := _format_template layout_template layout_context
      { status_code := 200, reason := "OK".data, body := rendered,
        headers := [("Content-Type".data, "text/html; charset=utf-8".data),
                    ("Content-Length".data, natToStr rendered.length),
                    ("Connection".data, "close".data)] }

end TemplateRenderer

namespace Server

open Util HttpTypes

/-- posixpath `normpath` (pure path normalization, what server.py's
`os.path.normpath` executes on this POSIX target): collapse `.`, empty and
`..` components, preserving leading `..` that escape the root and the special
double-slash prefix. -/
def normpath (path : Str) : Str :=
  if path = [] then ['.']
  else
    let initialSlashes : Nat :=
      if ('/' :: []).isPrefixOf path then
        if ('/' :: '/' :: []).isPrefixOf path ∧
            ¬ ('/' :: '/' :: '/' :: []).isPrefixOf path then 2 else 1
      else 0
    let comps := pysplit ['/'] path
    let newComps := comps.foldl
      (fun acc comp =>
        if comp = [] ∨ comp = ['.'] then acc
        else if comp ≠ ['.', '.'] ∨ (initialSlashes = 0 ∧ acc = []) ∨
            (¬ acc = [] ∧ acc.getLast? = some ['.', '.']) then acc ++ [comp]
        else if ¬ acc = [] then acc.dropLast
        else acc) []
    let joined := List.replicate initialSlashes '/' ++ List.intercalate ['/'] newComps
    if joined = [] then ['.'] else joined

/-- posixpath `join(a, b)` for two arguments (what server.py's `os.path.join`
executes on this POSIX target). -/
def pjoin (a b : Str) : Str :=
  if ('/' :: []).isPrefixOf b then b
  else if a = [] ∨ a.getLast? = some '/' then a ++ b
  else a ++ '/' :: b

/-- What the operating system resolves a `..`/`.`-containing absolute path to
before opening it, in the absence of symbolic links: pure normalization.
Models the path resolution performed by `os.path.exists`, `os.path.isfile`
and `open` in server.py `serve_static`. -/
def resolvePath (p : Str) : Str := normpath p

/-- The static-file tree: a map from resolved absolute path to file content
(`none` for paths that are not regular files). -/
def FS : Type := Str → Option Str

/-- server.py `HTTPServer._guess_content_type`. -/
def _guess_content_type (path : Str) : Str :=
  if ".css".data.isSuffixOf path then "text/css; charset=utf-8".data
  else if ".js".data.isSuffixOf path then "application/javascript; charset=utf-8".data
  else if ".png".data.isSuffixOf path then "image/png".data
  else if ".jpg".data.isSuffixOf path ∨ ".jpeg".data.isSuffixOf path then "image/jpeg".data
  else if ".ico".data.isSuffixOf path then "image/x-icon".data
  else "application/octet-stream".data

/-- server.py `HTTPServer._forbidden`. -/
def _forbidden : HTTPResponse :=
  let body := "403 Forbidden".data
  { status_code := 403, reason := "Forbidden".data, body := body,
    headers := [("Content-Type".data, "text/plain; charset=utf-8".data),
                ("Content-Length".data, natToStr body.length),
                ("Connection".data, "close".data)] }

/-- server.py `HTTPServer._not_found`. -/
def _not_found : HTTPResponse :=
  let body := "404 Not Found".data
  { status_code := 404, reason := "Not Found".data, body := body,
    headers := [("Content-Type".data, "text/plain; charset=utf-8".data),
                ("Content-Length".data, natToStr body.length),
                ("Connection".data, "close".data)] }

/-- server.py `HTTPServer.serve_static`: normalize the path, join it to the
static root, refuse with 403 when the joined string does not start with the
root, otherwise serve the file the OS resolves the joined path to (or fall
through with `none` when there is no such regular file). -/
def serve_static (fs : FS) (static_root : Str) (path : Str) : Option HTTPResponse :=
  let normalized := lstripChar '/' (normpath path)
  let absolute_path := pjoin static_root normalized
  if ¬ static_root.isPrefixOf absolute_path then some _forbidden
  else
    match fs (resolvePath absolute_path) with
    | none => none
    | some data =>
      some { status_code := 200, reason := "OK".data, body := data,
             headers := [("Content-Type".data, _guess_content_type absolute_path),
                         ("Content-Length".data, natToStr data.length),
                         ("Connection".data, "close".data)] }

/-- Whether a resolved absolute path lies under the root directory (the
property claim C2 asserts of every served file). -/
def underRoot (root p : Str) : Bool :=
  p = root || (root ++ ['/']).isPrefixOf p

/-- One record sent to `PerformanceMetricModel.record_metric` by server.py
`HTTPServer._record_metric`.  The float arithmetic of the source is modeled
over the rationals. -/
structure MetricRecord where
  latency_ms : ℚ
  throughput : ℚ
  rtt : ℚ
  request_count : Nat
deriving DecidableEq

/-- The server state touched by `_record_metric`: the `_request_counter`
attribute and the stream of recorded metrics. -/
structure ServerState where
  request_counter : Nat
  metrics : List MetricRecord
deriving DecidableEq

/-- server.py `HTTPServer._record_metric`. -/
def _record_metric (st : ServerState) (elapsed_seconds : ℚ) : ServerState :=
  if elapsed_seconds < 0 then st
  else
    let counter := st.request_counter + 1
    let latency_ms := elapsed_seconds * 1000
    let throughput : ℚ := if elapsed_seconds ≤ 0 then 0 else 1 / elapsed_seconds
    { request_counter := counter,
      metrics := st.metrics ++
        [{ latency_ms := latency_ms, throughput := throughput, rtt := latency_ms,
           request_count := counter }] }

/-- The outcome of invoking a matched route handler on a request: a returned
response, or an uncaught exception whose `str(exc)` description is `desc`.
Handlers are domain code outside the dispatch core, so dispatch is modeled as
a function of this outcome. -/
inductive HandlerOutcome where
  | ok (resp : HTTPResponse)
  | raises (desc : Str)
deriving DecidableEq

/-- server.py `HTTPServer._dispatch`, as a function of the request path, the
router's resolution result together with the matched handler's outcome
(`none` when no route matches), and the elapsed wall-clock seconds measured
by the two `time.perf_counter()` calls around the handler invocation.
Returns the response and the server state after metric recording. -/
def _dispatch (fs : FS) (static_root : Str) (path : Str)
    (resolved : Option HandlerOutcome) (elapsed : ℚ) (st : ServerState) :
    HTTPResponse × ServerState :=
  let staticResult :=
    if "/static/".data.isPrefixOf path then
      serve_static fs static_root (path.drop 8)
    else none
  match staticResult with
  | some response => (response, st)
  | none =>
    match resolved with
    | none => (_not_found, st)
    | some outcome =>
      let response :=
        match outcome with
        | .ok resp => resp
        | .raises desc =>
          let error_message := "Internal Server Error: ".data ++ desc
          { status_code := 500, reason := "Internal Server Error".data,
            body := error_message,
            headers := [("Content-Type".data, "text/plain; charset=utf-8".data),
                        ("Content-Length".data, natToStr error_message.length),
                        ("Connection".data, "close".data)] }
      (response, _record_metric st elapsed)

end Server

section Fixtures

/-- A router with the single registered route `GET /login`. -/
def routerLogin : Router.Router Nat :=
  Router.add_route Router.empty "/login".data "GET".data 7

/-- A router registering `GET /posts/new` before `GET /posts/<post_id>`,
exactly as server.py `_configure_routes` does. -/
def postsRouter : Router.Router Nat :=
  Router.add_route
    (Router.add_route Router.empty "/posts/new".data "GET".data 1)
    "/posts/<post_id>".data "GET".data 2

/-- A template root with a content template whose `missing` placeholder has no
context key, and the default layout. -/
def templatesFx : Str → Option Str := fun n =>
  if n = "page.html".data then some "{missing}".data
  else if n = "layout.html".data then some "{main_content}".data
  else none

/-- The static root used by server.py (under the application directory). -/
def staticRootFx : Str := "/app/blog_system/static".data

/-- A filesystem in which the application source `server.py` — a file outside
the static root — exists; nothing exists inside the static root. -/
def fsFx : Server.FS := fun p =>
  if p = "/app/blog_system/server.py".data then some "SECRET-SOURCE".data
  else none

end Fixtures

namespace Sanitizer

open Util

/-- handlers.py `_RichTextSanitizer.VOID_TAGS`. -/
def VOID_TAGS : List Str := ["br".data, "img".data, "hr".data]

/-- handlers.py `_ALLOWED_RICH_TEXT_TAGS` (a Python set used only through
membership tests). -/
def ALLOWED_TAGS : List Str :=
  ["p".data, "br".data, "strong".data, "em".data, "u".data, "s".data,
   "blockquote".data, "code".data, "pre".data, "ul".data, "ol".data,
   "li".data, "h1".data, "h2".data, "h3".data, "h4".data, "h5".data,
   "h6".data, "span".data, "a".data, "img".data, "table".data, "thead".data,
   "tbody".data, "tr".data, "th".data, "td".data, "hr".data, "figure".data,
   "figcaption".data, "sup".data, "sub".data, "div".data]

/-- handlers.py `_ALLOWED_RICH_TEXT_STYLES`. -/
def ALLOWED_STYLES : List Str :=
  ["color".data, "background-color".data, "font-size".data,
   "font-weight".data, "text-align".data, "text-decoration".data,
   "font-style".data, "font-family".data, "line-height".data,
   "letter-spacing".data, "margin".data, "margin-left".data,
   "margin-right".data, "margin-top".data, "margin-bottom".data]

/-- handlers.py `_ALLOWED_RICH_TEXT_ATTRS`: the per-tag attribute allow-list
dict (sets embedded as lists, used only through membership and emptiness). -/
def ALLOWED_ATTRS : List (Str × List Str) :=
  [("*".data, ["class".data, "style".data]),
   ("a".data, ["href".data, "target".data, "rel".data, "title".data]),
   ("img".data, ["src".data, "alt".data, "title".data]),
   ("table".data, ["class".data]),
   ("thead".data, ["class".data]),
   ("tbody".data, ["class".data]),
   ("tr".data, ["class".data]),
   ("th".data, ["colspan".data, "rowspan".data, "class".data, "style".data]),
   ("td".data, ["colspan".data, "rowspan".data, "class".data, "style".data]),
   ("code".data, ["class".data]),
   ("pre".data, ["class".data]),
   ("span".data, ["class".data, "style".data]),
   ("div".data, ["class".data, "style".data]),
   ("figure".data, ["class".data]),
   ("figcaption".data, ["class".data, "style".data])]

/-- `self.allowed_attrs.get(tag, set())` in `_sanitize_attributes`. -/
def allowedAttrsForTag (tag : Str) : List Str :=
  (Util.dictGet ALLOWED_ATTRS tag).getD []

/-- `self.allowed_attrs.get("*", set())` in `_sanitize_attributes`. -/
def GLOBAL_ATTRS : List Str :=
  (Util.dictGet ALLOWED_ATTRS "*".data).getD []

/-- Per-character worker of Python `html.escape`.  The source performs
sequential whole-string replaces with `&` first; since no replacement output
re-triggers a later pattern, that equals this character-wise expansion. -/
def escapeChar (quote : Bool) (c : Char) : Str :=
  if c = '&' then "&amp;".data
  else if c = '<' then "&lt;".data
  else if c = '>' then "&gt;".data
  else if quote ∧ c = '"' then "&quot;".data
  else if quote ∧ c = '\'' then "&#x27;".data
  else [c]

/-- Python `html.escape(s, quote)`. -/
def htmlEscape (quote : Bool) (s : Str) : Str := s.flatMap (escapeChar quote)

/-- One character of the class-token pattern `[A-Za-z0-9_-]`. -/
def isClassTokenChar (c : Char) : Bool :=
  ('A' ≤ c ∧ c ≤ 'Z') ∨ ('a' ≤ c ∧ c ≤ 'z') ∨ ('0' ≤ c ∧ c ≤ '9') ∨
    c = '_' ∨ c = '-'

/-- Python `str.split()` with no argument: whitespace-run splitting with no
empty tokens. -/
def pysplitWs (s : Str) : List Str :=
  (s.foldr
    (fun c acc =>
      match acc with
      | [] => [[]]
      | h :: t => if isPyWs c then [] :: h :: t else (c :: h) :: t)
    [[]]).filter (fun tok => ¬ tok.isEmpty)

/-- Python `sep.join(parts)`. -/
def pyjoin (sep : Str) : List Str → Str
  | [] => []
  | [x] => x
  | x :: y :: rest => x ++ sep ++ pyjoin sep (y :: rest)

/-- handlers.py `_RichTextSanitizer._sanitize_classes`: keep only tokens fully
matching `[A-Za-z0-9_-]+`, joined by single spaces. -/
def _sanitize_classes (value : Str) : Str :=
  pyjoin [' ']
    ((pysplitWs value).filter
      (fun tok => ¬ tok.isEmpty ∧ tok.all isClassTokenChar))

/-- One iteration of the loop in handlers.py
`_RichTextSanitizer._sanitize_style`: the cleaned `prop: value` text for one
`;`-separated item, or `none` when the item is dropped. -/
def styleItem (item : Str) : Option Str :=
  if occursIn [':'] item then
    match pysplit1 [':'] item with
    | [prop, rawVal] =>
      let prop_name := pylower (pystrip prop)
      if prop_name ∈ ALLOWED_STYLES then
        let sanitized_val := pystrip rawVal
        let lowered := pylower sanitized_val
        if occursIn "javascript:".data lowered ∨
            occursIn "expression".data lowered ∨
            occursIn "url(".data lowered then none
        else some (prop_name ++ ": ".data ++ sanitized_val)
      else none
    | _ => none
  else none

/-- handlers.py `_RichTextSanitizer._sanitize_style`: keep `prop: value`
pairs whose lower-cased property is allow-listed and whose lower-cased value
contains none of `javascript:`, `expression`, `url(`. -/
def _sanitize_style (value : Str) : Str :=
  pyjoin "; ".data ((pysplit [';'] value).filterMap styleItem)

/-- handlers.py `_RichTextSanitizer._sanitize_url`: pass the trimmed value
through unchanged when its lower-casing starts with an allowed scheme or with
`/` or `#`, else drop it.  Note the passed-through value is NOT escaped. -/
def _sanitize_url (value : Str) : Str :=
  let trimmed := pystrip value
  let lowered := pylower trimmed
  if "http://".data.isPrefixOf lowered ∨ "https://".data.isPrefixOf lowered ∨
      "mailto:".data.isPrefixOf lowered ∨ "tel:".data.isPrefixOf lowered ∨
      ['/'].isPrefixOf lowered ∨ ['#'].isPrefixOf lowered then trimmed
  else []

/-- handlers.py `_RichTextSanitizer._sanitize_src`. -/
def _sanitize_src (value : Str) : Str :=
  let trimmed := pystrip value
  let lowered := pylower trimmed
  if "http://".data.isPrefixOf lowered ∨ "https://".data.isPrefixOf lowered ∨
      "data:image/".data.isPrefixOf lowered then trimmed
  else []

/-- handlers.py `_RichTextSanitizer._sanitize_rel`. -/
def REL_ALLOWED : List Str :=
  ["noopener".data, "noreferrer".data, "nofollow".data, "external".data]

/-- handlers.py `_RichTextSanitizer._sanitize_rel`: keep only allow-listed
tokens, joined by single spaces. -/
def _sanitize_rel (value : Str) : Str :=
  pyjoin [' '] ((pysplitWs value).filter (fun tok => tok ∈ REL_ALLOWED))

/-- handlers.py `_RichTextSanitizer._escape_attr`. -/
def _escape_attr (value : Str) : Str := htmlEscape true value

/-- The emitted text for one kept attribute: `f' {name}="{sanitized_value}"'`. -/
def attrPiece (name sv : Str) : Str :=
  ' ' :: (name ++ '=' :: '"' :: (sv ++ ['"']))

/-- The per-attribute branch of `_sanitize_attributes`' loop: `none` when the
attribute is dropped, otherwise the sanitized value together with whether this
attribute marks `rel` as present and whether it is `target="_blank"`. -/
def attrEmit (name value : Str) : Option (Str × Bool × Bool) :=
  if name = "class".data then
    let sv := _sanitize_classes value
    if sv.isEmpty then none else some (sv, false, false)
  else if name = "style".data then
    let sv := _sanitize_style value
    if sv.isEmpty then none else some (sv, false, false)
  else if name = "href".data then
    let sv := _sanitize_url value
    if sv.isEmpty then none else some (sv, false, false)
  else if name = "src".data then
    let sv := _sanitize_src value
    if sv.isEmpty then none else some (sv, false, false)
  else if name = "target".data then
    let sv := pylower (pystrip value)
    if ¬ (sv ∈ ["_blank".data, "_self".data, "_parent".data, "_top".data])
    then none
    else some (sv, false, sv = "_blank".data)
  else if name = "rel".data then
    let sv := _sanitize_rel value
    if sv.isEmpty then none else some (sv, true, false)
  else some (_escape_attr value, false, false)

/-- The `for name, value in attrs` loop of handlers.py
`_RichTextSanitizer._sanitize_attributes`, returning the emitted pieces and
the final `rel_present` / `target_blank` flags. -/
def attrLoop (allowed : List Str) :
    List (Str × Option Str) → Bool → Bool → List Str × Bool × Bool
  | [], rel, blank => ([], rel, blank)
  | (name, vo) :: rest, rel, blank =>
    match vo with
    | none => attrLoop allowed rest rel blank
    | some value =>
      if name ∈ allowed then
        match attrEmit name value with
        | none => attrLoop allowed rest rel blank
        | some (sv, isRel, isBlank) =>
          let r := attrLoop allowed rest (rel || isRel) (blank || isBlank)
          (attrPiece name sv :: r.1, r.2)
      else attrLoop allowed rest rel blank

/-- handlers.py `_RichTextSanitizer._sanitize_attributes`. -/
def _sanitize_attributes (tag : Str) (attrs : List (Str × Option Str)) : Str :=
  let allowed := allowedAttrsForTag tag ++ GLOBAL_ATTRS
  if allowed.isEmpty then []
  else
    let r := attrLoop allowed attrs false false
    let pieces :=
      if tag = "a".data ∧ r.2.2 ∧ ¬ r.2.1 = true then
        r.1 ++ [" rel=\"noopener noreferrer\"".data]
      else r.1
    pieces.flatten

/-- The token events the streaming HTML tokenizer feeds to the sanitizer's
handlers (`html.parser.HTMLParser` callbacks). -/
inductive Event where
  | startTag (tag : Str) (attrs : List (Str × Option Str))
  | startEndTag (tag : Str) (attrs : List (Str × Option Str))
  | endTag (tag : Str)
  | data (s : Str)
  | entityRef (name : Str)
  | charRef (name : Str)
  | comment (s : Str)
deriving DecidableEq

/-- The output fragments that handlers.py `_RichTextSanitizer`'s handler for
one event appends to `self.output` (`handle_starttag`, `handle_startendtag`,
`handle_endtag`, `handle_data`, `handle_entityref`, `handle_charref`,
`handle_comment`). -/
def frag : Event → List Str
  | .startTag tag attrs =>
    if tag ∈ ALLOWED_TAGS then
      ['<' :: (tag ++ _sanitize_attributes tag attrs ++ ['>'])]
    else []
  | .startEndTag tag attrs =>
    if tag ∈ ALLOWED_TAGS then
      ['<' :: (tag ++ _sanitize_attributes tag attrs ++ ['>'])]
    else []
  | .endTag tag =>
    if tag ∈ ALLOWED_TAGS then
      if tag ∈ VOID_TAGS then [] else ['<' :: '/' :: (tag ++ ['>'])]
    else []
  | .data s => if s.isEmpty then [] else [htmlEscape true s]
  | .entityRef name => ['&' :: (name ++ [';'])]
  | .charRef name => ['&' :: '#' :: (name ++ [';'])]
  | .comment _ => []

/-- `get_html` over a full event stream: concatenation of all emitted
fragments in document order. -/
def sanitizeEvents (evs : List Event) : Str := (evs.flatMap frag).flatten

/-- Tokenizer guarantee used by the amended claim C1: no start-tag attribute
value and no entity/character-reference name contains a literal `<`. -/
def eventAttrsLtFree : Event → Bool
  | .startTag _ attrs =>
    attrs.all (fun p => match p.2 with | none => true | some v => ¬ '<' ∈ v)
  | .startEndTag _ attrs =>
    attrs.all (fun p => match p.2 with | none => true | some v => ¬ '<' ∈ v)
  | .entityRef n => ¬ '<' ∈ n
  | .charRef n => ¬ '<' ∈ n
  | _ => true

/-- The tag-fragment shape invariant behind claim C1: the fragment is free of
`<`, or it is `<` followed by at least two `<`-free characters whose first two
are not the pair `(a, b)`. -/
def FragOK (a b : Char) (f : Str) : Prop :=
  ('<' ∉ f) ∨
    ∃ c₁ c₂ u, f = '<' :: c₁ :: c₂ :: u ∧ '<' ∉ (c₁ :: c₂ :: u) ∧
      ¬ (c₁ = a ∧ c₂ = b)

/-- Bool check that a tag of length at least two does not start with the
two-character sequence `a`, `b` (used with `s`,`c` and `i`,`f` to rule out
the banned openings `<sc` and `<if`). -/
def tagFirstTwoOK (a b : Char) (tag : Str) : Bool :=
  match tag with
  | t₀ :: t₁ :: _ => ¬ (t₀ = a ∧ t₁ = b)
  | _ => true

end Sanitizer

section SanitizerFixtures

/-- A benign event stream used as a witness input. -/
def evsFx : List Sanitizer.Event :=
  [.startTag "p".data [("class".data, some "note".data)],
   .data "hello & <world>".data, .endTag "p".data]

end SanitizerFixtures

namespace HtmlTokenizer

open Util Sanitizer

/-!
Model of the streaming HTML tokenizer driving the sanitizer: CPython's
`html.parser.HTMLParser` with `convert_charrefs=True`, as constructed by
handlers.py `_sanitize_rich_text` (`feed` + `close`).  The tokenizer is
standard-library code, external to this repository; this embedding follows
CPython's tolerant parsing (`tagfind_tolerant` / `attrfind_tolerant`) on the
constructs exercised by the closed theorems below, with these documented
simplifications, none of which is reached by any theorem in this file:
named character references limited to `amp/lt/gt/quot/apos` plus numeric
references, all requiring semicolons; no CDATA/raw-text mode for
`script`/`style` elements; simplified recovery for unterminated markup at
end of input.
-/

/-- ASCII letter. -/
def isAsciiAlpha (c : Char) : Bool :=
  ('A' ≤ c ∧ c ≤ 'Z') ∨ ('a' ≤ c ∧ c ≤ 'z')

/-- ASCII digit. -/
def isAsciiDigit (c : Char) : Bool := '0' ≤ c ∧ c ≤ '9'

/-- ASCII hex digit. -/
def isHexDigit (c : Char) : Bool :=
  isAsciiDigit c ∨ ('a' ≤ c ∧ c ≤ 'f') ∨ ('A' ≤ c ∧ c ≤ 'F')

/-- Value of a hex digit. -/
def hexVal (c : Char) : Nat :=
  if isAsciiDigit c then c.toNat - 48
  else if 'a' ≤ c ∧ c ≤ 'f' then c.toNat - 87
  else c.toNat - 55

/-- Decimal digit string to number. -/
def digitsToNat (l : Str) : Nat :=
  l.foldl (fun acc c => acc * 10 + (c.toNat - 48)) 0

/-- Hex digit string to number. -/
def hexToNat (l : Str) : Nat := l.foldl (fun acc c => acc * 16 + hexVal c) 0

/-- One character reference after a `&`, if present: the decoded character
and the remaining input. -/
def parseRef (s : Str) : Option (Char × Str) :=
  if "amp;".data.isPrefixOf s then some ('&', s.drop 4)
  else if "lt;".data.isPrefixOf s then some ('<', s.drop 3)
  else if "gt;".data.isPrefixOf s then some ('>', s.drop 3)
  else if "quot;".data.isPrefixOf s then some ('"', s.drop 5)
  else if "apos;".data.isPrefixOf s then some ('\'', s.drop 5)
  else
    match s with
    | '#' :: rest =>
      match rest with
      | c :: rest2 =>
        if c = 'x' ∨ c = 'X' then
          let ds := rest2.takeWhile isHexDigit
          if ds.isEmpty then none
          else
            match rest2.drop ds.length with
            | ';' :: rest3 => some (Char.ofNat (hexToNat ds), rest3)
            | _ => none
        else
          let ds := rest.takeWhile isAsciiDigit
          if ds.isEmpty then none
          else
            match rest.drop ds.length with
            | ';' :: rest3 => some (Char.ofNat (digitsToNat ds), rest3)
            | _ => none
      | [] => none
    | _ => none

/-- Worker for `unescape` (fuel is always sufficient). -/
def unescapeGo : Nat → Str → Str
  | 0, s => s
  | fuel + 1, s =>
    match s with
    | [] => []
    | '&' :: rest =>
      match parseRef rest with
      | some (c, rest2) => c :: unescapeGo fuel rest2
      | none => '&' :: unescapeGo fuel rest
    | c :: rest => c :: unescapeGo fuel rest

/-- `html.unescape` on the subset above: decode character references. -/
def unescape (s : Str) : Str := unescapeGo (s.length + 1) s

/-- Characters allowed after the first in a tag name
(`tagfind_tolerant`). -/
def isTagNameRest (c : Char) : Bool :=
  ¬ (c = '\t' ∨ c = '\n' ∨ c = '\r' ∨ c = '\x0c' ∨ c = ' ' ∨ c = '/' ∨
     c = '>' ∨ c = '\x00')

/-- First character of an attribute name (`attrfind_tolerant`). -/
def isAttrNameFirst (c : Char) : Bool := ¬ (isPyWs c ∨ c = '/' ∨ c = '>')

/-- Later characters of an attribute name (`attrfind_tolerant`): anything but
whitespace, `/`, `=`, `>` — including a stray `"`. -/
def isAttrNameRest (c : Char) : Bool :=
  ¬ (isPyWs c ∨ c = '/' ∨ c = '=' ∨ c = '>')

/-- Characters of an end-tag name after the first (`endtagfind`). -/
def isEndNameRest (c : Char) : Bool :=
  c = '-' ∨ c = '.' ∨ isAsciiAlpha c ∨ isAsciiDigit c ∨ c = ':' ∨ c = '_'

/-- The attribute loop of CPython `parse_starttag`: returns the parsed
attributes, whether the tag is self-closing, and the input after the `>`;
`none` for a tag left unterminated at end of input. -/
def parseAttrs : Nat → Str → List (Str × Option Str) →
    Option (List (Str × Option Str) × Bool × Str)
  | 0, _, _ => none
  | fuel + 1, s, acc =>
    match s with
    | [] => none
    | c :: rest =>
      if isPyWs c then parseAttrs fuel rest acc
      else if c = '/' then
        match rest with
        | '>' :: rest2 => some (acc.reverse, true, rest2)
        | _ => parseAttrs fuel rest acc
      else if c = '>' then some (acc.reverse, false, rest)
      else if isAttrNameFirst c then
        let nmRest := rest.takeWhile isAttrNameRest
        let name := pylower (c :: nmRest)
        let after := rest.drop nmRest.length
        let after1 := after.dropWhile isPyWs
        match after1 with
        | '=' :: _ =>
          let afterEq := (after1.dropWhile (fun x => x = '=')).dropWhile isPyWs
          match afterEq with
          | '"' :: vrest =>
            let v := vrest.takeWhile (fun x => ¬ x = '"')
            parseAttrs fuel (vrest.drop (v.length + 1))
              ((name, some (unescape v)) :: acc)
          | '\'' :: vrest =>
            let v := vrest.takeWhile (fun x => ¬ x = '\'')
            parseAttrs fuel (vrest.drop (v.length + 1))
              ((name, some (unescape v)) :: acc)
          | _ =>
            let v := afterEq.takeWhile (fun x => ¬ (x = '>' ∨ isPyWs x))
            parseAttrs fuel (afterEq.drop v.length)
              ((name, some (unescape v)) :: acc)
        | _ => parseAttrs fuel after ((name, none) :: acc)
      else none

/-- The `goahead` loop: text runs (entity references converted, per
`convert_charrefs=True`) interleaved with start tags, end tags, comments,
declarations and bare `<` characters. -/
def tokenizeGo : Nat → Str → List Event
  | 0, _ => []
  | fuel + 1, s =>
    let txt := s.takeWhile (fun c => ¬ c = '<')
    let rest := s.drop txt.length
    let dataEvs : List Event := if txt.isEmpty then [] else [.data (unescape txt)]
    match rest with
    | [] => dataEvs
    | _ :: r1 =>
      match r1 with
      | [] => dataEvs ++ [.data ['<']]
      | c2 :: r2 =>
        if isAsciiAlpha c2 then
          let nmRest := r2.takeWhile isTagNameRest
          let tagname := pylower (c2 :: nmRest)
          let afterName := r2.drop nmRest.length
          match parseAttrs (afterName.length + 1) afterName [] with
          | some (attrs, selfClosing, rest2) =>
            let ev : Event :=
              if selfClosing then .startEndTag tagname attrs
              else .startTag tagname attrs
            dataEvs ++ ev :: tokenizeGo fuel rest2
          | none => dataEvs ++ [.data (unescape rest)]
        else if c2 = '/' then
          match r2 with
          | [] => dataEvs ++ [.data "</".data]
          | '>' :: r3 => dataEvs ++ tokenizeGo fuel r3
          | c3 :: _ =>
            if isAsciiAlpha c3 then
              let nm := c3 :: (r2.drop 1).takeWhile isEndNameRest
              let after := r2.drop nm.length
              match findSub ['>'] after with
              | some i =>
                dataEvs ++ .endTag (pylower nm) :: tokenizeGo fuel (after.drop (i + 1))
              | none => dataEvs
            else
              match findSub ['>'] r2 with
              | some i =>
                dataEvs ++ .comment (r2.take i) :: tokenizeGo fuel (r2.drop (i + 1))
              | none => dataEvs ++ [.comment r2]
        else if "!--".data.isPrefixOf r1 then
          let body := r1.drop 3
          match findSub "-->".data body with
          | some i =>
            dataEvs ++ .comment (body.take i) :: tokenizeGo fuel (body.drop (i + 3))
          | none => dataEvs ++ [.comment body]
        else if c2 = '!' ∨ c2 = '?' then
          match findSub ['>'] r1 with
          | some i => dataEvs ++ tokenizeGo fuel (r1.drop (i + 1))
          | none => dataEvs
        else dataEvs ++ .data ['<'] :: tokenizeGo fuel r1

/-- The full tokenizer over one input (`feed` then `close`). -/
def tokenize (s : Str) : List Event := tokenizeGo (s.length + 1) s

end HtmlTokenizer

namespace Sanitizer

/-- handlers.py `BaseHandler._sanitize_rich_text`: construct a
`_RichTextSanitizer` over the module allow-lists, feed the content, close,
and return the joined output. -/
def _sanitize_rich_text (content : Str) : Str :=
  sanitizeEvents (HtmlTokenizer.tokenize content)

end Sanitizer

namespace HttpTypes

/-! ### Multipart form parsing (http_types.py `_parse_multipart_form`)

Python `bytes` values are modelled as `List Nat` (one entry per byte).
The generic `Util` helpers (`pysplit`, `pypartition`, ...) already work over
any decidable-equality element type and hence over both `Str` and byte
lists, matching the fact that CPython's `str` and `bytes` share these
method semantics. -/

open Util

/-- The Unicode replacement character U+FFFD produced by `errors="replace"`. -/
def replChar : Char := Char.ofNat 0xfffd

/-- Worker for `bytes.decode("utf-8", errors="replace")`, following CPython's
UTF-8 decoder: a maximal valid subpart of an ill-formed sequence is replaced
by a single U+FFFD and decoding resumes at the first invalid byte.  The fuel
only serves structural recursion; every step consumes at least one byte. -/
def utf8DecodeGo : Nat → List Nat → Str
  | 0, _ => []
  | _ + 1, [] => []
  | fuel + 1, b :: rest =>
    if b < 0x80 then Char.ofNat b :: utf8DecodeGo fuel rest
    else if b < 0xc2 then replChar :: utf8DecodeGo fuel rest
    else if b < 0xe0 then
      match rest with
      | [] => [replChar]
      | c1 :: rest1 =>
        if 0x80 ≤ c1 ∧ c1 < 0xc0 then
          Char.ofNat ((b - 0xc0) * 64 + (c1 - 0x80)) :: utf8DecodeGo fuel rest1
        else replChar :: utf8DecodeGo fuel rest
    else if b < 0xf0 then
      match rest with
      | [] => [replChar]
      | c1 :: rest1 =>
        if (if b = 0xe0 then 0xa0 else 0x80) ≤ c1 ∧
            c1 < (if b = 0xed then 0xa0 else 0xc0) then
          match rest1 with
          | [] => [replChar]
          | c2 :: rest2 =>
            if 0x80 ≤ c2 ∧ c2 < 0xc0 then
              Char.ofNat ((b - 0xe0) * 4096 + (c1 - 0x80) * 64 + (c2 - 0x80)) ::
                utf8DecodeGo fuel rest2
            else replChar :: utf8DecodeGo fuel rest1
        else replChar :: utf8DecodeGo fuel rest
    else if b < 0xf5 then
      match rest with
      | [] => [replChar]
      | c1 :: rest1 =>
        if (if b = 0xf0 then 0x90 else 0x80) ≤ c1 ∧
            c1 < (if b = 0xf4 then 0x90 else 0xc0) then
          match rest1 with
          | [] => [replChar]
          | c2 :: rest2 =>
            if 0x80 ≤ c2 ∧ c2 < 0xc0 then
              match rest2 with
              | [] => [replChar]
              | c3 :: rest3 =>
                if 0x80 ≤ c3 ∧ c3 < 0xc0 then
                  Char.ofNat ((b - 0xf0) * 262144 + (c1 - 0x80) * 4096 +
                      (c2 - 0x80) * 64 + (c3 - 0x80)) :: utf8DecodeGo fuel rest3
                else replChar :: utf8DecodeGo fuel rest2
            else replChar :: utf8DecodeGo fuel rest1
        else replChar :: utf8DecodeGo fuel rest
    else replChar :: utf8DecodeGo fuel rest

/-- Python `bytes.decode("utf-8", errors="replace")`. -/
def utf8DecodeReplace (l : List Nat) : Str := utf8DecodeGo (l.length + 1) l

/-- UTF-8 encoding of one character (Python `str.encode("utf-8")`). -/
def utf8EncodeChar (c : Char) : List Nat :=
  let n := c.toNat
  if n < 0x80 then [n]
  else if n < 0x800 then [0xc0 + n / 64, 0x80 + n % 64]
  else if n < 0x10000 then [0xe0 + n / 4096, 0x80 + n / 64 % 64, 0x80 + n % 64]
  else [0xf0 + n / 262144, 0x80 + n / 4096 % 64, 0x80 + n / 64 % 64, 0x80 + n % 64]

/-- Python `str.encode("utf-8")`. -/
def utf8Encode (s : Str) : List Nat := s.flatMap utf8EncodeChar

/-- Byte string literal helper: the bytes of an ASCII string (`b"..."`). -/
def asciiB (s : String) : List Nat := s.data.map Char.toNat

/-- A `get_files()` entry: filename, content type, raw content bytes. -/
structure FileEntry where
  filename : Str
  content_type : Str
  content : List Nat
deriving DecidableEq

/-- Accumulated `(form_values, file_values)` dictionaries. -/
abbrev FormAcc := List (Str × Str) × List (Str × FileEntry)

/-- The `for parameter in parameters` loop of `_parse_multipart_form`:
find the first `;`-separated parameter of the content type that starts with
`boundary=` (after stripping), take everything after the first `=`,
strip it, and remove one pair of surrounding double quotes. -/
def boundaryLoop : List Str → Str
  | [] => []
  | parameter :: rest =>
    let p := pystrip parameter
    if ("boundary=".data).isPrefixOf p then
      let tok := pystrip ((pysplit1 ['='] p).getD 1 [])
      if tok.head? = some '"' ∧ tok.getLast? = some '"' then
        (tok.drop 1).dropLast
      else tok
    else boundaryLoop rest

/-- Boundary token extraction from the Content-Type header value. -/
def extractBoundary (content_type : Str) : Str :=
  boundaryLoop (pysplit [';'] content_type)

/-- The `for header_line in headers` loop body of `_parse_multipart_form`:
remember the last header line starting (case-insensitively) with
`content-disposition`, else the last one starting with `content-type`. -/
def headerScan (dc : Str × Str) (header_line : Str) : Str × Str :=
  let lower_line := pylower header_line
  if ("content-disposition".data).isPrefixOf lower_line then (header_line, dc.2)
  else if ("content-type".data).isPrefixOf lower_line then (dc.1, header_line)
  else dc

/-- The `for part in parts` loop body over the `;`-separated parameters of
the Content-Disposition header: the last `name=`/`filename=` parameter
wins, with one layer of surrounding double quotes stripped. -/
def dispScan (nf : Str × Option Str) (piece : Str) : Str × Option Str :=
  let p := pystrip piece
  if ("name=".data).isPrefixOf p then
    (stripChar '"' ((pysplit1 ['='] p).getD 1 []), nf.2)
  else if ("filename=".data).isPrefixOf p then
    (nf.1, some (stripChar '"' ((pysplit1 ['='] p).getD 1 [])))
  else nf

/-- One iteration of the `for segment in segments` loop of
`_parse_multipart_form` (http_types.py lines 154-200): skip empty and
marker segments, strip one leading and one trailing CRLF, split headers
from content at the first blank line, locate the Content-Disposition and
Content-Type header lines, extract `name` and `filename` from the
disposition parameters, and record either a file entry or a decoded text
form value. -/
def parseSegment (acc : FormAcc) (segment : List Nat) : FormAcc :=
  if segment = [] then acc
  else if segment = asciiB "--\r\n" ∨ segment = asciiB "--" ∨
      segment = asciiB "\r\n--" ∨ segment = asciiB "--\r\n--" then acc
  else
    let seg1 := if (asciiB "\r\n").isPrefixOf segment then segment.drop 2 else segment
    let seg2 := if (asciiB "\r\n").isSuffixOf seg1 then seg1.take (seg1.length - 2) else seg1
    let part3 := pypartition (asciiB "\r\n\r\n") seg2
    if part3.2.1 = false then acc
    else
      let content_bytes := part3.2.2
      let header_text := utf8DecodeReplace part3.1
      let headers := pysplit ("\r\n".data) header_text
      let dc := headers.foldl headerScan ([], [])
      if dc.1 = [] then acc
      else
        let nf := (pysplit [';'] dc.1).foldl dispScan ([], none)
        if nf.1 = [] then acc
        else
          match nf.2 with
          | some fn =>
            if fn = [] then
              (dictInsert acc.1 nf.1 (utf8DecodeReplace content_bytes), acc.2)
            else
              let ctv :=
                if dc.2 = [] then "application/octet-stream".data
                else
                  let v := pystrip (pypartition [':'] dc.2).2.2
                  if v = [] then "application/octet-stream".data else v
              (acc.1, dictInsert acc.2 nf.1 ⟨fn, ctv, content_bytes⟩)
          | none =>
            (dictInsert acc.1 nf.1 (utf8DecodeReplace content_bytes), acc.2)

/-- http_types.py `HTTPRequest._parse_multipart_form`: extract the boundary
token from the Content-Type value, split the body on `b"--" + boundary`,
and process each segment; returns the `(form_values, file_values)` pair the
method stores into the caches served by `get_form_data()`/`get_files()`. -/
def _parse_multipart_form (content_type : Str) (body : List Nat) : FormAcc :=
  let boundary_token := extractBoundary content_type
  if boundary_token = [] then ([], [])
  else
    let boundary_bytes := utf8Encode ("--".data ++ boundary_token)
    let segments := pysplit boundary_bytes body
    segments.foldl parseSegment ([], [])

/-! ### Spec-side multipart body construction

The following definitions follow the specification's words (not the code):
they build a well-formed `multipart/form-data` body from a list of abstract
parts and state how each part is expected to be classified, so that the C8
claim can compare the parser against them. -/

/-- An abstract multipart part: a field name, an optional filename and
content type (as they appear in the part's headers), and raw content
bytes. -/
structure Part where
  name : Str
  filename : Option Str
  ctype : Option Str
  content : List Nat
deriving DecidableEq

/-- The optional `; filename="..."` bytes of a part's disposition line. -/
def fnPartB (p : Part) : List Nat :=
  match p.filename with
  | some fn => asciiB "; filename=\"" ++ fn.map Char.toNat ++ asciiB "\""
  | none => []

/-- The Content-Disposition header line of a part, as bytes. -/
def dispB (p : Part) : List Nat :=
  asciiB "Content-Disposition: form-data; name=\"" ++ p.name.map Char.toNat ++
    asciiB "\"" ++ fnPartB p

/-- The optional CRLF-prefixed Content-Type header line of a part, as bytes. -/
def ctPartB (p : Part) : List Nat :=
  match p.ctype with
  | some ct => asciiB "\r\nContent-Type: " ++ ct.map Char.toNat
  | none => []

/-- The header block of a part as serialized in a multipart body. -/
def partHeaders (p : Part) : List Nat :=
  dispB p ++ ctPartB p

/-- The Content-Disposition header line of a part, as text. -/
def dispLine (p : Part) : Str :=
  "Content-Disposition: form-data; name=\"".data ++ p.name ++ "\"".data ++
    (match p.filename with
     | some fn => "; filename=\"".data ++ fn ++ "\"".data
     | none => [])

/-- A Content-Type header line, as text. -/
def ctLine (ct : Str) : Str := "Content-Type: ".data ++ ct

/-- The `name="..."` parameter piece of a disposition line, as split on
semicolons (with its leading space). -/
def nmPiece (n : Str) : Str := " name=\"".data ++ n ++ "\"".data

/-- The `filename="..."` parameter piece of a disposition line. -/
def fnPiece (fn : Str) : Str := " filename=\"".data ++ fn ++ "\"".data

/-- The bytes a part contributes between two boundary separators. -/
def partBlock (p : Part) : List Nat :=
  asciiB "\r\n" ++ partHeaders p ++ asciiB "\r\n\r\n" ++ p.content ++ asciiB "\r\n"

/-- A complete multipart body over boundary token `b`:
`--b <part1> --b <part2> ... --b--` with CRLF framing. -/
def buildBody (b : Str) (parts : List Part) : List Nat :=
  (parts.flatMap fun p => utf8Encode ("--".data ++ b) ++ partBlock p) ++
    utf8Encode ("--".data ++ b) ++ asciiB "--\r\n"

/-- The specification's classification of one part: a part with a non-empty
filename becomes a file entry carrying the filename, the content type
(defaulting to `application/octet-stream`), and the exact content bytes;
a part without a filename, or with an empty filename, becomes a text form
field whose value is the content UTF-8-decoded with replacement. -/
def expectedStep (acc : FormAcc) (p : Part) : FormAcc :=
  match p.filename with
  | some fn =>
    if fn = [] then
      (dictInsert acc.1 p.name (utf8DecodeReplace p.content), acc.2)
    else
      (acc.1, dictInsert acc.2 p.name
        ⟨fn,
         (match p.ctype with
          | some ct => ct
          | none => "application/octet-stream".data),
         p.content⟩)
  | none => (dictInsert acc.1 p.name (utf8DecodeReplace p.content), acc.2)

/-- Well-formedness of a header field appearing inside a quoted
Content-Disposition parameter: ASCII, and free of the `;`, `"`, CR and LF
characters that would disturb the part's header framing. -/
def wfField (s : Str) : Prop :=
  ∀ c ∈ s, c.toNat < 128 ∧ c ≠ ';' ∧ c ≠ '"' ∧ c ≠ '\r' ∧ c ≠ '\n'

/-- Well-formedness of a declared content type: nonempty,
whitespace-stripped, ASCII and CR/LF-free. -/
def wfCtype (s : Str) : Prop :=
  s ≠ [] ∧ pystrip s = s ∧ ∀ c ∈ s, c.toNat < 128 ∧ c ≠ '\r' ∧ c ≠ '\n'

/-- Well-formedness of an abstract part: nonempty well-formed name,
well-formed filename if any, well-formed content type if any. -/
def wfPart (p : Part) : Prop :=
  p.name ≠ [] ∧ wfField p.name ∧
    (∀ fn, p.filename = some fn → wfField fn) ∧
    (∀ ct, p.ctype = some ct → wfCtype ct)

/-- Well-formedness of a boundary token: nonempty, ASCII, and free of
whitespace and of the `;`, `"`, CR, LF delimiter characters. -/
def wfBoundary (b : Str) : Prop :=
  b ≠ [] ∧ ∀ c ∈ b, c.toNat < 128 ∧ isPyWs c = false ∧
    c ≠ ';' ∧ c ≠ '"' ∧ c ≠ '\r' ∧ c ≠ '\n'

instance decWfField (s : Str) : Decidable (wfField s) := by
  unfold wfField; infer_instance

instance decWfCtype (s : Str) : Decidable (wfCtype s) := by
  unfold wfCtype; infer_instance

instance decOptForall {Q : Str → Prop} [DecidablePred Q] (o : Option Str) :
    Decidable (∀ x, o = some x → Q x) :=
  match o with
  | none => isTrue (fun x h => Option.noConfusion h)
  | some a =>
    if h : Q a then
      isTrue (fun x hx => by injection hx with he; rw [← he]; exact h)
    else isFalse (fun hall => h (hall a rfl))

instance decWfPart (p : Part) : Decidable (wfPart p) := by
  unfold wfPart; infer_instance

instance decWfBoundary (b : Str) : Decidable (wfBoundary b) := by
  unfold wfBoundary; infer_instance

end HttpTypes

/-! ## Theorems -/

namespace Util

section GenericLemmas

variable {α : Type} [DecidableEq α]

theorem isPrefixOf_self (l : List α) : l.isPrefixOf l = true := by
  induction l with
  | nil => rfl
  | cons a t ih => simp [List.isPrefixOf, ih]

theorem occursIn_suffix (p x : List α) : occursIn p (x ++ p) = true := by
  induction x with
  | nil =>
    cases p with
    | nil => rfl
    | cons a t => simp [occursIn, isPrefixOf_self]
  | cons a x ih =>
    have : occursIn p (a :: (x ++ p)) = (p.isPrefixOf (a :: (x ++ p)) || occursIn p (x ++ p)) := rfl
    simp only [List.cons_append, this, ih, Bool.or_true]

theorem occursIn_single_iff (a : α) (s : List α) :
    occursIn [a] s = true ↔ a ∈ s := by
  induction s with
  | nil => simp [occursIn]
  | cons b rest ih =>
    simp only [occursIn, List.isPrefixOf, Bool.or_eq_true, Bool.and_eq_true,
      beq_iff_eq, List.mem_cons, ih]
    constructor
    · rintro (⟨rfl, -⟩ | h)
      · exact Or.inl rfl
      · exact Or.inr h
    · rintro (rfl | h)
      · exact Or.inl ⟨rfl, trivial⟩
      · exact Or.inr h

theorem findSub_none_of_not_occurs {pat s : List α}
    (h : occursIn pat s = false) : findSub pat s = none := by
  induction s with
  | nil =>
    simp only [occursIn] at h
    simp [findSub, h]
  | cons a rest ih =>
    simp only [occursIn, Bool.or_eq_false_iff] at h
    simp [findSub, h.1, ih h.2]

theorem pysplit_no_occurrence {sep s : List α} (hsep : sep.isEmpty = false)
    (h : occursIn sep s = false) : pysplit sep s = [s] := by
  simp [pysplit, hsep, pysplitGo, findSub_none_of_not_occurs h]

theorem findSub_single_append {a : α} {n : List α} (v : List α) (h : a ∉ n) :
    findSub [a] (n ++ a :: v) = some n.length := by
  induction n with
  | nil => simp [findSub, List.isPrefixOf, isPrefixOf_self]
  | cons c n ih =>
    have hac : ¬ ([a].isPrefixOf (c :: (n ++ a :: v)) = true) := by
      simp only [List.isPrefixOf, Bool.and_eq_true, beq_iff_eq]
      rintro ⟨rfl, -⟩
      exact h (List.mem_cons_self _ _)
    have hn : a ∉ n := fun hm => h (List.mem_cons_of_mem _ hm)
    simp [findSub, hac, ih hn]

theorem take_len_append (a b : List α) : (a ++ b).take a.length = a := by
  induction a with
  | nil => simp
  | cons x a ih => simp [ih]

theorem drop_len_append (a b : List α) : (a ++ b).drop a.length = b := by
  induction a with
  | nil => simp
  | cons x a ih => simp [ih]

end GenericLemmas

theorem dropWhile_append_sing {q : Char → Bool} {c : Char} (hc : q c = true)
    (p : Str) :
    List.dropWhile q (p ++ [c]) =
      if (List.dropWhile q p).isEmpty then [] else List.dropWhile q p ++ [c] := by
  induction p with
  | nil => simp [List.dropWhile, hc]
  | cons a p ih =>
    by_cases ha : q a = true
    · simpa [List.dropWhile, ha] using ih
    · simp [List.dropWhile, ha]

theorem dropWhileEnd_append_sing {q : Char → Bool} {c : Char} (hc : q c = true)
    (l : Str) : dropWhileEnd q (l ++ [c]) = dropWhileEnd q l := by
  simp [dropWhileEnd, List.reverse_append, List.dropWhile, hc]

theorem stripChar_append_sing (c : Char) (p : Str) :
    stripChar c (p ++ [c]) = stripChar c p := by
  have hc : (fun x => decide (x = c)) c = true := by simp
  unfold stripChar
  rw [dropWhile_append_sing hc]
  by_cases he : (List.dropWhile (fun x => decide (x = c)) p).isEmpty = true
  · rw [if_pos he]
    rw [List.isEmpty_iff.mp he]
  · rw [if_neg he, dropWhileEnd_append_sing hc]

end Util

namespace Router

open Util

theorem split_path_append_slash (p : Str) :
    split_path (p ++ ['/']) = split_path p := by
  by_cases h0 : p = []
  · subst h0; decide
  by_cases h1 : p = "/".data
  · subst h1; decide
  have h2 : ¬ p ++ ['/'] = "/".data := by
    intro h
    apply h0
    have := congrArg List.length h
    simp at this
    exact this
  unfold split_path
  rw [if_neg h1, if_neg h2, stripChar_append_sing]

theorem match_segments_length {routeSegs reqSegs : List Str}
    (h : (match_segments routeSegs reqSegs).isSome = true) :
    routeSegs.length = reqSegs.length := by
  by_cases hl : routeSegs.length = reqSegs.length
  · exact hl
  · simp [match_segments, hl] at h

/-- Claim C5, amended.  `_split_path` strips `/` from both ends before
splitting, so a sole trailing slash is normalized away: `/login/` and `/login`
produce identical segment lists and resolve identically.  The equal-segment-
count requirement itself holds. -/
theorem routeMatchNeedsEqualCounts_trailingSlashNormalized :
    (∀ routeSegs reqSegs : List Str,
        (match_segments routeSegs reqSegs).isSome = true →
          routeSegs.length = reqSegs.length) ∧
    (∀ (H : Type) (router : Router H) (p m : Str),
        resolve router (p ++ ['/']) m = resolve router p m) := by
  refine ⟨fun _ _ h => match_segments_length h, fun H router p m => ?_⟩
  unfold resolve
  rw [split_path_append_slash]

/-- Witness for the amended claim C5 at concrete inputs. -/
theorem routeMatchNeedsEqualCounts_trailingSlashNormalized_witness :
    (["login".data] : List Str).length = (["login".data] : List Str).length ∧
    resolve routerLogin ("/login".data ++ ['/']) "GET".data =
      resolve routerLogin "/login".data "GET".data :=
  ⟨routeMatchNeedsEqualCounts_trailingSlashNormalized.1 ["login".data]
      ["login".data] (by decide),
   routeMatchNeedsEqualCounts_trailingSlashNormalized.2 Nat routerLogin
      "/login".data "GET".data⟩

/-- Counterexample to claim C5 as stated: with `GET /login` registered, the
path `/login/` (which the claim says must not match) does resolve, to that
route's handler. -/
theorem trailingSlashDoesMatch_counterexample :
    resolve routerLogin "/login/".data "GET".data =
      some { handler := 7, params := [] } := by
  decide

/-- Claim C7: routes are tried in registration order with the upper-cased
stored method compared against the upper-cased request method; with
`GET /posts/new` registered before `GET /posts/<post_id>`, resolving
`/posts/new` (here with method spelled `get`) picks the literal route with no
params, and `/posts/abc` picks the parameterized route binding `post_id`. -/
theorem resolveRegistrationOrderPrecedence :
    resolve postsRouter "/posts/new".data "get".data =
      some { handler := 1, params := [] } ∧
    resolve postsRouter "/posts/abc".data "GET".data =
      some { handler := 2, params := [("post_id".data, "abc".data)] } := by
  constructor <;> decide

end Router

namespace HttpTypes

open Util

/-- Claim C6, amended: `get_cookies` splits each `;`-separated pair at the
first `=` (Python `part.split("=", 1)`), not the last: the name is everything
before the first `=` and the value everything after it, whitespace-trimmed. -/
theorem cookiePairSplitsAtFirstEquals (n v : Str)
    (h1 : '=' ∉ n) (h2 : ';' ∉ n) (h3 : ';' ∉ v) :
    get_cookies (n ++ '=' :: v) = [(pystrip n, pystrip v)] := by
  have hne : (n ++ '=' :: v).isEmpty = false := by
    cases n <;> simp
  have hocc : occursIn [';'] (n ++ '=' :: v) = false := by
    rw [Bool.eq_false_iff]
    intro hc
    rcases List.mem_append.mp ((occursIn_single_iff _ _).mp hc) with h | h
    · exact h2 h
    · rcases List.mem_cons.mp h with h | h
      · exact absurd h (by decide)
      · exact h3 h
  have hsplit : pysplit [';'] (n ++ '=' :: v) = [n ++ '=' :: v] :=
    pysplit_no_occurrence (by decide) hocc
  have heq : occursIn ['='] (n ++ '=' :: v) = true :=
    (occursIn_single_iff _ _).mpr (List.mem_append.mpr (Or.inr (List.mem_cons_self _ _)))
  have hfind : findSub ['='] (n ++ '=' :: v) = some n.length :=
    findSub_single_append v h1
  have ht : (n ++ '=' :: v).take n.length = n := take_len_append n _
  have hd : (n ++ '=' :: v).drop (n.length + 1) = v := by
    have h1d : (n ++ '=' :: v).drop n.length = '=' :: v := drop_len_append n _
    have h2d : (n ++ '=' :: v).drop (n.length + 1) =
        ((n ++ '=' :: v).drop n.length).drop 1 := by
      rw [List.drop_drop]
    rw [h2d, h1d]
    rfl
  have hsplit1 : pysplit1 ['='] (n ++ '=' :: v) = [n, v] := by
    unfold pysplit1
    rw [hfind]
    show [(n ++ '=' :: v).take n.length,
          (n ++ '=' :: v).drop (n.length + ['='].length)] = [n, v]
    have hone : n.length + ['='].length = n.length + 1 := rfl
    rw [ht, hone, hd]
  unfold get_cookies
  rw [if_neg (by simp [hne]), hsplit]
  simp only [List.foldl_cons, List.foldl_nil, heq, if_true, hsplit1]
  rfl

/-- Witness for the amended claim C6 at the concrete header `a=b=c`. -/
theorem cookiePairSplitsAtFirstEquals_witness :
    '=' ∉ "a".data ∧ ';' ∉ "a".data ∧ ';' ∉ "b=c".data ∧
    get_cookies ("a".data ++ '=' :: "b=c".data) =
      [(pystrip "a".data, pystrip "b=c".data)] :=
  ⟨by decide, by decide, by decide,
   cookiePairSplitsAtFirstEquals "a".data "b=c".data (by decide) (by decide)
     (by decide)⟩

/-- Counterexample to claim C6 as stated: for the pair `a=b=c` the code
produces name `a` and value `b=c` (first `=`), not name `a=b` and value `c`
(last `=`) as the claim asserts. -/
theorem cookieLastEquals_counterexample :
    get_cookies "a=b=c".data = [("a".data, "b=c".data)] ∧
    ¬ get_cookies "a=b=c".data = [("a=b".data, "c".data)] := by
  constructor <;> decide

end HttpTypes

namespace TemplateRenderer

open Util

theorem replaceAllGo_nil (pat rep : Str) (fuel : Nat) :
    replaceAllGo pat rep fuel [] = [] := by
  cases fuel <;> rfl

theorem replaceAll_self (pat rep : Str) (h : ¬ pat = []) :
    replaceAll pat pat rep = rep := by
  match pat, h with
  | c :: rest, _ =>
    show replaceAllGo (c :: rest) rep ((c :: rest).length + 1) (c :: rest) = rep
    have hlen : (c :: rest).length + 1 = rest.length + 1 + 1 := by simp
    rw [hlen]
    show (if (c :: rest).isPrefixOf (c :: rest) ∧ ¬ (c :: rest).isEmpty then
        rep ++ replaceAllGo (c :: rest) rep (rest.length + 1)
          ((c :: rest).drop (c :: rest).length)
      else c :: replaceAllGo (c :: rest) rep (rest.length + 1) rest) = rep
    rw [if_pos ⟨isPrefixOf_self _, by simp⟩, List.drop_length,
      replaceAllGo_nil, List.append_nil]

theorem replaceAllGo_no_occurrence (pat rep : Str) :
    ∀ (fuel : Nat) (s : Str), occursIn pat s = false →
      replaceAllGo pat rep fuel s = s := by
  intro fuel
  induction fuel with
  | zero => intro s _; rfl
  | succ fuel ih =>
    intro s hs
    cases s with
    | nil => rfl
    | cons c rest =>
      have hdef : occursIn pat (c :: rest) =
          (pat.isPrefixOf (c :: rest) || occursIn pat rest) := rfl
      rw [hdef, Bool.or_eq_false_iff] at hs
      show (if pat.isPrefixOf (c :: rest) ∧ ¬ (pat.isEmpty) then
          rep ++ replaceAllGo pat rep fuel ((c :: rest).drop pat.length)
        else c :: replaceAllGo pat rep fuel rest) = c :: rest
      rw [if_neg (by simp [hs.1]), ih rest hs.2]

theorem replaceAll_no_occurrence (s pat rep : Str)
    (h : occursIn pat s = false) : replaceAll s pat rep = s :=
  replaceAllGo_no_occurrence pat rep _ s h

/-- Claim C10: `_format_template` substitutes sequentially, one whole-text
replacement per context key in iteration order.  With the layout context
mapping `main_content` (earlier) to `m` and `extra_css_links` (later) to `c`,
every `extra_css_links`-shaped token inside the substituted `m` is replaced by
`c`; with the iteration order reversed no token inside `m` is touched —
substitution is order-dependent, not simultaneous. -/
theorem formatTemplateSubstitutesSequentially (m c : Str) :
    _format_template "{main_content}".data
        [("main_content".data, m), ("extra_css_links".data, c)] =
      replaceAll m ('{' :: ("extra_css_links".data ++ ['}'])) c ∧
    _format_template "{main_content}".data
        [("extra_css_links".data, c), ("main_content".data, m)] = m := by
  have hmc : ('{' :: ("main_content".data ++ ['}'])) = "{main_content}".data := by
    decide
  constructor
  · show replaceAll
        (replaceAll "{main_content}".data ('{' :: ("main_content".data ++ ['}'])) m)
        ('{' :: ("extra_css_links".data ++ ['}'])) c = _
    rw [hmc, replaceAll_self _ _ (by decide)]
  · show replaceAll
        (replaceAll "{main_content}".data ('{' :: ("extra_css_links".data ++ ['}'])) c)
        ('{' :: ("main_content".data ++ ['}'])) m = m
    rw [replaceAll_no_occurrence "{main_content}".data
        ('{' :: ("extra_css_links".data ++ ['}'])) c (by decide), hmc,
      replaceAll_self _ _ (by decide)]

/-- Claim C3, amended: a placeholder naming a key absent from the context is
left unsubstituted and rendering still succeeds: whenever both the content
template and the layout template load, `render` returns a 200 response (the
`except KeyError` / `_missing_placeholder_response` path is unreachable,
because the replace-loop of `_format_template` never raises). -/
theorem renderMissingKeyStill200 (templates : Str → Option Str)
    (year name : Str) (ctx : List (Str × Str)) (mt lt : Str)
    (h1 : templates name = some mt)
    (h2 : templates (dictGetD ctx "_layout".data "layout.html".data) = some lt) :
    (render templates year name ctx).status_code = 200 := by
  unfold render
  simp only [h1, h2]

/-- Witness for the amended claim C3 at a concrete template root. -/
theorem renderMissingKeyStill200_witness :
    templatesFx "page.html".data = some "{missing}".data ∧
    templatesFx (dictGetD [] "_layout".data "layout.html".data) =
      some "{main_content}".data ∧
    (render templatesFx "2026".data "page.html".data []).status_code = 200 :=
  ⟨by decide, by decide,
   renderMissingKeyStill200 templatesFx "2026".data "page.html".data []
     "{missing}".data "{main_content}".data (by decide) (by decide)⟩

/-- Counterexample to claim C3 as stated: a content template consisting of the
placeholder token for the key `missing`, rendered with an empty context,
yields a 200 response whose body is the untouched placeholder — not the 500
response naming the template and the key that the claim asserts. -/
theorem renderMissingKey_counterexample :
    (render templatesFx "2026".data "page.html".data []).status_code = 200 ∧
    (render templatesFx "2026".data "page.html".data []).body =
      "{missing}".data := by
  constructor <;> decide

end TemplateRenderer

namespace Server

open Util

/-- Claim C2: the path-traversal guard of `serve_static` compares the
*unresolved* joined string against the root with `startswith`, so the request
path `/static/../server.py` passes the check, and dispatch serves the
application source file `/app/blog_system/server.py` with status 200 even
though that file's resolved absolute path is outside the static root. -/
theorem staticTraversalServesOutsideRoot :
    (_dispatch fsFx staticRootFx "/static/../server.py".data none 0
        { request_counter := 0, metrics := [] }).1.status_code = 200 ∧
    (_dispatch fsFx staticRootFx "/static/../server.py".data none 0
        { request_counter := 0, metrics := [] }).1.body = "SECRET-SOURCE".data ∧
    resolvePath (pjoin staticRootFx
        (lstripChar '/' (normpath "../server.py".data))) =
      "/app/blog_system/server.py".data ∧
    underRoot staticRootFx "/app/blog_system/server.py".data = false := by
  refine ⟨?_, ?_, ?_, ?_⟩ <;> decide

theorem occursIn_desc_in_error (desc : Str) :
    occursIn desc ("Internal Server Error: ".data ++ desc) = true :=
  occursIn_suffix desc _

/-- Claim C9: when a request reaches a matched handler (nothing served
statically) and the handler raises, `_dispatch` returns a 500 response whose
body embeds the exception description, and the `finally` block still records
exactly one latency metric whose request counter is the incremented one. -/
theorem dispatchHandlerExceptionRecordsMetric (fs : FS) (root path desc : Str)
    (elapsed : ℚ) (st : ServerState)
    (hstatic : ("/static/".data.isPrefixOf path) = false)
    (helapsed : 0 ≤ elapsed) :
    (_dispatch fs root path (some (.raises desc)) elapsed st).1.status_code = 500 ∧
    (_dispatch fs root path (some (.raises desc)) elapsed st).1.body =
      "Internal Server Error: ".data ++ desc ∧
    occursIn desc
      (_dispatch fs root path (some (.raises desc)) elapsed st).1.body = true ∧
    (_dispatch fs root path (some (.raises desc)) elapsed st).2.request_counter =
      st.request_counter + 1 ∧
    (_dispatch fs root path (some (.raises desc)) elapsed st).2.metrics =
      st.metrics ++
        [{ latency_ms := elapsed * 1000,
           throughput := if elapsed ≤ 0 then 0 else 1 / elapsed,
           rtt := elapsed * 1000,
           request_count := st.request_counter + 1 }] := by
  have hneg : ¬ elapsed < 0 := not_lt.mpr helapsed
  have hbody : (_dispatch fs root path (some (.raises desc)) elapsed st).1.body =
      "Internal Server Error: ".data ++ desc := by
    simp [_dispatch, hstatic]
  refine ⟨?_, hbody, ?_, ?_, ?_⟩
  · simp [_dispatch, hstatic]
  · rw [hbody]
    exact occursIn_suffix desc _
  · simp [_dispatch, hstatic, _record_metric, hneg]
  · simp [_dispatch, hstatic, _record_metric, hneg]

/-- Witness for claim C9 at concrete inputs. -/
theorem dispatchHandlerExceptionRecordsMetric_witness :
    ("/static/".data.isPrefixOf "/x".data) = false ∧ (0 : ℚ) ≤ 1 ∧
    (_dispatch (fun _ => none) [] "/x".data
        (some (.raises "boom".data)) 1
        { request_counter := 0, metrics := [] }).1.status_code = 500 :=
  ⟨by decide, by norm_num,
   (dispatchHandlerExceptionRecordsMetric (fun _ => none) [] "/x".data
      "boom".data 1 { request_counter := 0, metrics := [] } (by decide)
      (by norm_num)).1⟩

end Server

namespace Sanitizer

open Util

theorem escapeChar_no_lt (q : Bool) (c : Char) : '<' ∉ escapeChar q c := by
  unfold escapeChar
  split_ifs with h1 h2 h3 h4 h5
  · decide
  · decide
  · decide
  · decide
  · decide
  · simp only [List.mem_singleton]
    intro h
    exact h2 h.symm

theorem htmlEscape_no_lt (q : Bool) (s : Str) : '<' ∉ htmlEscape q s := by
  intro h
  rcases List.mem_flatMap.mp h with ⟨c, -, hc⟩
  exact escapeChar_no_lt q c hc

theorem mem_dropWhile {p : Char → Bool} {x : Char} {l : Str}
    (h : x ∈ l.dropWhile p) : x ∈ l :=
  List.Sublist.mem h (List.dropWhile_sublist p)

theorem mem_dropWhileEnd {p : Char → Bool} {x : Char} {l : Str}
    (h : x ∈ dropWhileEnd p l) : x ∈ l := by
  unfold dropWhileEnd at h
  rw [List.mem_reverse] at h
  exact List.mem_reverse.mp (mem_dropWhile h)

theorem mem_pystrip {x : Char} {l : Str} (h : x ∈ pystrip l) : x ∈ l :=
  mem_dropWhile (mem_dropWhileEnd h)

theorem mem_pysplitGo {sep : Str} :
    ∀ (fuel : Nat) (s piece : Str), piece ∈ pysplitGo sep fuel s →
      ∀ x ∈ piece, x ∈ s := by
  intro fuel
  induction fuel with
  | zero =>
    intro s piece h x hx
    simp only [pysplitGo, List.mem_singleton] at h
    exact h ▸ hx
  | succ fuel ih =>
    intro s piece h x hx
    cases hf : findSub sep s with
    | none =>
      simp only [pysplitGo, hf, List.mem_singleton] at h
      exact h ▸ hx
    | some i =>
      simp only [pysplitGo, hf, List.mem_cons] at h
      rcases h with rfl | h
      · exact List.mem_of_mem_take hx
      · exact List.mem_of_mem_drop (ih _ _ h x hx)

theorem mem_pysplit {sep s piece : Str} (h : piece ∈ pysplit sep s) :
    ∀ x ∈ piece, x ∈ s := by
  unfold pysplit at h
  split at h
  · simp only [List.mem_singleton] at h
    exact fun x hx => h ▸ hx
  · exact mem_pysplitGo _ _ _ h

theorem mem_pysplit1 {sep s piece : Str} (h : piece ∈ pysplit1 sep s) :
    ∀ x ∈ piece, x ∈ s := by
  unfold pysplit1 at h
  split at h
  · simp only [List.mem_singleton] at h
    exact fun x hx => h ▸ hx
  · simp only [List.mem_cons, List.mem_singleton, List.not_mem_nil,
      or_false] at h
    rcases h with rfl | rfl
    · exact fun x hx => List.mem_of_mem_take hx
    · exact fun x hx => List.mem_of_mem_drop hx

theorem mem_pyjoin {sep : Str} :
    ∀ (l : List Str) (x : Char), x ∈ pyjoin sep l →
      x ∈ sep ∨ ∃ t ∈ l, x ∈ t := by
  intro l
  induction l with
  | nil => intro x h; simp [pyjoin] at h
  | cons a rest ih =>
    cases rest with
    | nil =>
      intro x h
      exact Or.inr ⟨a, List.mem_cons_self a [], h⟩
    | cons b rest' =>
      intro x h
      simp only [pyjoin, List.append_assoc, List.mem_append] at h
      rcases h with h | h | h
      · exact Or.inr ⟨a, List.mem_cons_self _ _, h⟩
      · exact Or.inl h
      · rcases ih x h with h | ⟨t, ht, hx⟩
        · exact Or.inl h
        · exact Or.inr ⟨t, List.mem_cons_of_mem _ ht, hx⟩

end Sanitizer

namespace Sanitizer

open Util

theorem classes_no_lt (v : Str) : '<' ∉ _sanitize_classes v := by
  intro h
  unfold _sanitize_classes at h
  rcases mem_pyjoin _ '<' h with h | ⟨t, ht, hx⟩
  · exact absurd h (by decide)
  · rw [List.mem_filter] at ht
    have h2 := of_decide_eq_true ht.2
    have h3 := List.all_eq_true.mp h2.2 '<' hx
    exact absurd h3 (by decide)

theorem styleItem_some {item t : Str} (h : styleItem item = some t) :
    ∃ pn sv, t = pn ++ ": ".data ++ sv ∧ pn ∈ ALLOWED_STYLES ∧
      ∀ x ∈ sv, x ∈ item := by
  unfold styleItem at h
  split at h
  · split at h
    next prop rawVal heq =>
      dsimp only at h
      split at h
      next hmem =>
        split at h
        · exact absurd h (by simp)
        · injection h with h
          refine ⟨_, _, h.symm, hmem, fun x hx => ?_⟩
          have hraw : x ∈ rawVal := mem_pystrip hx
          have hr : rawVal ∈ pysplit1 [':'] item := by
            rw [heq]; simp
          exact mem_pysplit1 hr x hraw
      next => exact absurd h (by simp)
    next => exact absurd h (by simp)
  · exact absurd h (by simp)

theorem style_no_lt (v : Str) (hv : '<' ∉ v) : '<' ∉ _sanitize_style v := by
  intro h
  unfold _sanitize_style at h
  rcases mem_pyjoin _ '<' h with h | ⟨t, ht, hx⟩
  · exact absurd h (by decide)
  · obtain ⟨item, hitem, hf⟩ := List.mem_filterMap.mp ht
    obtain ⟨pn, sv, rfl, hpn, hsv⟩ := styleItem_some hf
    rcases List.mem_append.mp hx with hx | hx
    · rcases List.mem_append.mp hx with hx | hx
      · revert hx
        fin_cases hpn <;> decide
      · exact absurd hx (by decide)
    · exact hv (mem_pysplit hitem '<' (hsv '<' hx))

theorem url_no_lt (v : Str) (hv : '<' ∉ v) : '<' ∉ _sanitize_url v := by
  unfold _sanitize_url
  dsimp only
  split_ifs
  · exact fun h => hv (mem_pystrip h)
  · exact List.not_mem_nil '<'

theorem src_no_lt (v : Str) (hv : '<' ∉ v) : '<' ∉ _sanitize_src v := by
  unfold _sanitize_src
  dsimp only
  split_ifs
  · exact fun h => hv (mem_pystrip h)
  · exact List.not_mem_nil '<'

theorem rel_no_lt (v : Str) : '<' ∉ _sanitize_rel v := by
  intro h
  unfold _sanitize_rel at h
  rcases mem_pyjoin _ '<' h with h | ⟨t, ht, hx⟩
  · exact absurd h (by decide)
  · rw [List.mem_filter] at ht
    have h2 := of_decide_eq_true ht.2
    revert hx
    fin_cases h2 <;> decide

theorem attrEmit_no_lt {name value sv : Str} {r b : Bool}
    (h : attrEmit name value = some (sv, r, b)) (hv : '<' ∉ value) :
    '<' ∉ sv := by
  unfold attrEmit at h
  dsimp only at h
  split_ifs at h with h1 h2 h3 h4 h5 h6 h7 h8 h9 h10 h11 h12 <;>
    try exact Option.noConfusion h
  all_goals
    (simp only [Option.some.injEq, Prod.mk.injEq] at h
     obtain ⟨h', -, -⟩ := h
     subst h')
  · exact classes_no_lt value
  · exact style_no_lt value hv
  · exact url_no_lt value hv
  · exact src_no_lt value hv
  · simp only [List.mem_cons, List.not_mem_nil, or_false] at h10
    rcases h10 with h10 | h10 | h10 | h10 <;> rw [h10] <;> decide
  · exact rel_no_lt value
  · exact htmlEscape_no_lt true value

end Sanitizer


namespace Sanitizer

open Util

theorem no_lt_mem_helper (L : List Str)
    (hL : L.all (fun m => decide ('<' ∉ m)) = true) {n : Str} (h : n ∈ L) :
    '<' ∉ n :=
  of_decide_eq_true (List.all_eq_true.mp hL n h)

theorem dictGet_mem_values {β : Type} {m : List (Str × β)} {k : Str} {v : β}
    (h : Util.dictGet m k = some v) : v ∈ m.map Prod.snd := by
  induction m with
  | nil => exact Option.noConfusion h
  | cons p rest ih =>
    obtain ⟨k', v'⟩ := p
    have hd : Util.dictGet ((k', v') :: rest) k =
        if k' = k then some v' else Util.dictGet rest k := rfl
    by_cases hk : k' = k
    · rw [hd, if_pos hk] at h
      injection h with h
      rw [List.map_cons]
      subst h
      exact List.mem_cons_self _ _
    · rw [hd, if_neg hk] at h
      rw [List.map_cons]
      exact List.mem_cons_of_mem _ (ih h)

theorem attrList_no_lt {n : Str} {L : List Str} {k : Str}
    (hget : Util.dictGet ALLOWED_ATTRS k = some L) (h : n ∈ L) : '<' ∉ n := by
  have hv := dictGet_mem_values hget
  have hall : ∀ L' ∈ ALLOWED_ATTRS.map Prod.snd,
      L'.all (fun m => decide ('<' ∉ m)) = true := by decide
  exact no_lt_mem_helper L (hall L hv) h

theorem allowedAttrName_no_lt (tag n : Str)
    (h : n ∈ allowedAttrsForTag tag ++ GLOBAL_ATTRS) : '<' ∉ n := by
  rcases List.mem_append.mp h with h | h
  · unfold allowedAttrsForTag at h
    cases hget : Util.dictGet ALLOWED_ATTRS tag with
    | none => rw [hget] at h; simp at h
    | some L => rw [hget] at h; exact attrList_no_lt hget h
  · unfold GLOBAL_ATTRS at h
    cases hget : Util.dictGet ALLOWED_ATTRS "*".data with
    | none => rw [hget] at h; simp at h
    | some L => rw [hget] at h; exact attrList_no_lt hget h

theorem attrPiece_no_lt {name sv : Str} (hn : '<' ∉ name) (hs : '<' ∉ sv) :
    '<' ∉ attrPiece name sv := by
  unfold attrPiece
  intro hx
  rcases List.mem_cons.mp hx with h | h
  · exact absurd h (by decide)
  rcases List.mem_append.mp h with h | h
  · exact hn h
  rcases List.mem_cons.mp h with h | h
  · exact absurd h (by decide)
  rcases List.mem_cons.mp h with h | h
  · exact absurd h (by decide)
  rcases List.mem_append.mp h with h | h
  · exact hs h
  · exact absurd h (by decide)

theorem attrLoop_no_lt (allowed : List Str)
    (hallowed : ∀ m ∈ allowed, '<' ∉ m) :
    ∀ (attrs : List (Str × Option Str)) (rel blank : Bool),
      (∀ p ∈ attrs, ∀ v, p.2 = some v → '<' ∉ v) →
      ∀ piece ∈ (attrLoop allowed attrs rel blank).1, '<' ∉ piece := by
  intro attrs
  induction attrs with
  | nil => intro rel blank _ piece hp; simp [attrLoop] at hp
  | cons a rest ih =>
    intro rel blank hattrs piece hp
    obtain ⟨name, vo⟩ := a
    have hrest : ∀ p ∈ rest, ∀ v, p.2 = some v → '<' ∉ v :=
      fun p hpmem => hattrs p (List.mem_cons_of_mem _ hpmem)
    cases vo with
    | none =>
      exact ih rel blank hrest piece hp
    | some value =>
      have hval : '<' ∉ value :=
        hattrs (name, some value) (List.mem_cons_self _ _) value rfl
      by_cases hmem : name ∈ allowed
      · rw [attrLoop, if_pos hmem] at hp
        cases hEmit : attrEmit name value with
        | none =>
          rw [hEmit] at hp
          exact ih rel blank hrest piece hp
        | some svrb =>
          obtain ⟨sv, isRel, isBlank⟩ := svrb
          rw [hEmit] at hp
          simp only [List.mem_cons] at hp
          rcases hp with rfl | hp
          · exact attrPiece_no_lt (hallowed name hmem)
              (attrEmit_no_lt hEmit hval)
          · exact ih (rel || isRel) (blank || isBlank) hrest piece hp
      · rw [attrLoop, if_neg hmem] at hp
        exact ih rel blank hrest piece hp

theorem attrLoop_shape (allowed : List Str) :
    ∀ (attrs : List (Str × Option Str)) (rel blank : Bool),
      ∀ piece ∈ (attrLoop allowed attrs rel blank).1, ∃ r, piece = ' ' :: r := by
  intro attrs
  induction attrs with
  | nil => intro rel blank piece hp; simp [attrLoop] at hp
  | cons a rest ih =>
    intro rel blank piece hp
    obtain ⟨name, vo⟩ := a
    cases vo with
    | none => exact ih rel blank piece hp
    | some value =>
      by_cases hmem : name ∈ allowed
      · rw [attrLoop, if_pos hmem] at hp
        cases hEmit : attrEmit name value with
        | none =>
          rw [hEmit] at hp
          exact ih rel blank piece hp
        | some svrb =>
          obtain ⟨sv, isRel, isBlank⟩ := svrb
          rw [hEmit] at hp
          simp only [List.mem_cons] at hp
          rcases hp with rfl | hp
          · exact ⟨_, rfl⟩
          · exact ih (rel || isRel) (blank || isBlank) piece hp
      · rw [attrLoop, if_neg hmem] at hp
        exact ih rel blank piece hp

theorem sanitize_attributes_no_lt (tag : Str) (attrs : List (Str × Option Str))
    (hattrs : ∀ p ∈ attrs, ∀ v, p.2 = some v → '<' ∉ v) :
    '<' ∉ _sanitize_attributes tag attrs := by
  unfold _sanitize_attributes
  dsimp only
  split
  · exact List.not_mem_nil '<'
  · intro h
    split at h <;>
    · obtain ⟨piece, hpiece, hx⟩ := List.mem_flatten.mp h
      first
      | (rcases List.mem_append.mp hpiece with hpiece | hpiece
         · exact attrLoop_no_lt _ (allowedAttrName_no_lt tag) attrs false false
             hattrs piece hpiece hx
         · simp only [List.mem_singleton] at hpiece
           subst hpiece
           exact absurd hx (by decide))
      | exact attrLoop_no_lt _ (allowedAttrName_no_lt tag) attrs false false
          hattrs piece hpiece hx

theorem flatten_space_shape (ps : List Str)
    (h : ∀ p ∈ ps, ∃ r, p = ' ' :: r) :
    ps.flatten = [] ∨ ∃ r, ps.flatten = ' ' :: r := by
  cases ps with
  | nil => exact Or.inl rfl
  | cons p ps =>
    obtain ⟨r, rfl⟩ := h p (List.mem_cons_self _ _)
    exact Or.inr ⟨r ++ ps.flatten, by simp⟩

theorem sanitize_attributes_shape (tag : Str) (attrs : List (Str × Option Str)) :
    _sanitize_attributes tag attrs = [] ∨
      ∃ r, _sanitize_attributes tag attrs = ' ' :: r := by
  unfold _sanitize_attributes
  dsimp only
  split
  · exact Or.inl rfl
  · split
    · apply flatten_space_shape
      intro p hp
      rcases List.mem_append.mp hp with hp | hp
      · exact attrLoop_shape _ attrs false false p hp
      · simp only [List.mem_singleton] at hp
        subst hp
        exact ⟨_, rfl⟩
    · exact flatten_space_shape _ (attrLoop_shape _ attrs false false)

end Sanitizer

namespace Sanitizer

open Util

theorem isPrefixOf_trans {α : Type} [DecidableEq α] :
    ∀ {p q r : List α}, p.isPrefixOf q = true → q.isPrefixOf r = true →
      p.isPrefixOf r = true := by
  intro p
  induction p with
  | nil => intro q r _ _; cases r <;> rfl
  | cons a p ih =>
    intro q r h1 h2
    cases q with
    | nil => simp [List.isPrefixOf] at h1
    | cons b q =>
      cases r with
      | nil => simp [List.isPrefixOf] at h2
      | cons c r =>
        simp only [List.isPrefixOf, Bool.and_eq_true, beq_iff_eq] at h1 h2 ⊢
        exact ⟨h1.1.trans h2.1, ih h1.2 h2.2⟩

theorem occursIn_mono_of_pre {α : Type} [DecidableEq α] {p₁ p₂ s : List α}
    (hp : p₁.isPrefixOf p₂ = true) (h : occursIn p₂ s = true) :
    occursIn p₁ s = true := by
  induction s with
  | nil =>
    have h2 : p₂.isEmpty = true := h
    have : p₂ = [] := List.isEmpty_iff.mp h2
    subst this
    cases p₁ with
    | nil => rfl
    | cons a t => simp [List.isPrefixOf] at hp
  | cons c rest ih =>
    have hdef : occursIn p₂ (c :: rest) =
        (p₂.isPrefixOf (c :: rest) || occursIn p₂ rest) := rfl
    rw [hdef, Bool.or_eq_true] at h
    have hdef1 : occursIn p₁ (c :: rest) =
        (p₁.isPrefixOf (c :: rest) || occursIn p₁ rest) := rfl
    rw [hdef1, Bool.or_eq_true]
    rcases h with h | h
    · exact Or.inl (isPrefixOf_trans hp h)
    · exact Or.inr (ih h)

theorem occursInLt_skip {a b : Char} {g J : Str} (hg : '<' ∉ g)
    (h : occursIn ['<', a, b] (g ++ J) = true) :
    occursIn ['<', a, b] J = true := by
  induction g with
  | nil => exact h
  | cons c g ih =>
    have hc : ¬ ('<' : Char) = c := fun e => hg (e ▸ List.mem_cons_self c g)
    have hdef : occursIn ['<', a, b] (c :: (g ++ J)) =
        ((['<', a, b] : Str).isPrefixOf (c :: (g ++ J)) ||
          occursIn ['<', a, b] (g ++ J)) := rfl
    rw [List.cons_append, hdef, Bool.or_eq_true] at h
    rcases h with h | h
    · simp only [List.isPrefixOf, Bool.and_eq_true, beq_iff_eq] at h
      exact absurd h.1 hc
    · exact ih (fun hm => hg (List.mem_cons_of_mem c hm)) h

theorem flatten_no_pattern {a b : Char} {fs : List Str}
    (hfs : ∀ f ∈ fs, FragOK a b f) :
    occursIn ['<', a, b] fs.flatten = false := by
  induction fs with
  | nil => rfl
  | cons f fs ih =>
    have hJ : occursIn ['<', a, b] fs.flatten = false :=
      ih (fun g hg => hfs g (List.mem_cons_of_mem f hg))
    rw [List.flatten_cons]
    by_contra hcon
    rw [Bool.not_eq_false] at hcon
    rcases hfs f (List.mem_cons_self f fs) with hlt | ⟨c₁, c₂, u, rfl, hltu, hab⟩
    · rw [occursInLt_skip hlt hcon] at hJ
      exact Bool.noConfusion hJ
    · have hdef : occursIn ['<', a, b] ('<' :: (c₁ :: c₂ :: u ++ fs.flatten)) =
          ((['<', a, b] : Str).isPrefixOf ('<' :: (c₁ :: c₂ :: u ++ fs.flatten)) ||
            occursIn ['<', a, b] (c₁ :: c₂ :: u ++ fs.flatten)) := rfl
      rw [List.cons_append, hdef, Bool.or_eq_true] at hcon
      rcases hcon with hcon | hcon
      · simp only [List.cons_append, List.isPrefixOf, Bool.and_eq_true,
          beq_iff_eq] at hcon
        exact hab ⟨hcon.2.1.symm, hcon.2.2.1.symm⟩
      · have hsplit : c₁ :: c₂ :: u ++ fs.flatten =
            (c₁ :: c₂ :: u) ++ fs.flatten := by simp
        rw [hsplit] at hcon
        rw [occursInLt_skip hltu hcon] at hJ
        exact Bool.noConfusion hJ

end Sanitizer

namespace Sanitizer

open Util

theorem attrsLtFree_start {tag : Str} {attrs : List (Str × Option Str)}
    (h : eventAttrsLtFree (.startTag tag attrs) = true) :
    ∀ p ∈ attrs, ∀ v, p.2 = some v → '<' ∉ v := by
  intro p hp v hv
  have h2 := List.all_eq_true.mp h p hp
  rw [hv] at h2
  exact of_decide_eq_true h2

theorem attrsLtFree_startEnd {tag : Str} {attrs : List (Str × Option Str)}
    (h : eventAttrsLtFree (.startEndTag tag attrs) = true) :
    ∀ p ∈ attrs, ∀ v, p.2 = some v → '<' ∉ v := by
  intro p hp v hv
  have h2 := List.all_eq_true.mp h p hp
  rw [hv] at h2
  exact of_decide_eq_true h2

theorem startFrag_fragOK (a b : Char)
    (hb1 : ¬ ('>' : Char) = b) (hb2 : ¬ (' ' : Char) = b)
    (htwo : ∀ t ∈ ALLOWED_TAGS, tagFirstTwoOK a b t = true)
    {tag : Str} (htag : tag ∈ ALLOWED_TAGS)
    {attrs : List (Str × Option Str)}
    (hattrs : ∀ p ∈ attrs, ∀ v, p.2 = some v → '<' ∉ v) :
    FragOK a b ('<' :: (tag ++ _sanitize_attributes tag attrs ++ ['>'])) := by
  obtain ⟨hne, hnl⟩ :=
    (by decide : ∀ t ∈ ALLOWED_TAGS, ¬ t = [] ∧ '<' ∉ t) tag htag
  have hanl : '<' ∉ _sanitize_attributes tag attrs :=
    sanitize_attributes_no_lt tag attrs hattrs
  cases tag with
  | nil => exact absurd rfl hne
  | cons t₀ ts =>
    cases ts with
    | nil =>
      rcases sanitize_attributes_shape [t₀] attrs with hemp | ⟨r, hr⟩
      · rw [hemp]
        refine Or.inr ⟨t₀, '>', [], by simp, ?_, ?_⟩
        · intro hm
          rcases List.mem_cons.mp hm with h | h
          · exact hnl (h ▸ List.mem_cons_self _ _)
          rcases List.mem_cons.mp h with h | h
          · exact absurd h (by decide)
          · exact absurd h (List.not_mem_nil _)
        · rintro ⟨-, h2⟩
          exact hb1 h2
      · rw [hr]
        refine Or.inr ⟨t₀, ' ', r ++ ['>'], by simp, ?_, ?_⟩
        · intro hm
          rcases List.mem_cons.mp hm with h | h
          · exact hnl (h ▸ List.mem_cons_self _ _)
          rcases List.mem_cons.mp h with h | h
          · exact absurd h (by decide)
          rcases List.mem_append.mp h with h | h
          · exact hanl (hr ▸ List.mem_cons_of_mem _ h)
          · exact absurd h (by decide)
        · rintro ⟨-, h2⟩
          exact hb2 h2
    | cons t₁ ts' =>
      have hcond : ¬ (t₀ = a ∧ t₁ = b) :=
        of_decide_eq_true (htwo _ htag)
      refine Or.inr
        ⟨t₀, t₁, ts' ++ _sanitize_attributes (t₀ :: t₁ :: ts') attrs ++ ['>'],
          by simp, ?_, hcond⟩
      intro hm
      rcases List.mem_cons.mp hm with h | h
      · exact hnl (h ▸ List.mem_cons_self _ _)
      rcases List.mem_cons.mp h with h | h
      · exact hnl (h ▸ List.mem_cons_of_mem _ (List.mem_cons_self _ _))
      rcases List.mem_append.mp h with h | h
      · rcases List.mem_append.mp h with h | h
        · exact hnl (List.mem_cons_of_mem _ (List.mem_cons_of_mem _ h))
        · exact hanl h
      · exact absurd h (by decide)

theorem frag_fragOK (a b : Char)
    (ha : ¬ ('/' : Char) = a) (hb1 : ¬ ('>' : Char) = b)
    (hb2 : ¬ (' ' : Char) = b)
    (htwo : ∀ t ∈ ALLOWED_TAGS, tagFirstTwoOK a b t = true)
    (ev : Event) (hev : eventAttrsLtFree ev = true) :
    ∀ f ∈ frag ev, FragOK a b f := by
  intro f hf
  cases ev with
  | startTag tag attrs =>
    simp only [frag] at hf
    split at hf
    next htag =>
      simp only [List.mem_singleton] at hf
      subst hf
      exact startFrag_fragOK a b hb1 hb2 htwo htag (attrsLtFree_start hev)
    next => exact absurd hf (List.not_mem_nil f)
  | startEndTag tag attrs =>
    simp only [frag] at hf
    split at hf
    next htag =>
      simp only [List.mem_singleton] at hf
      subst hf
      exact startFrag_fragOK a b hb1 hb2 htwo htag (attrsLtFree_startEnd hev)
    next => exact absurd hf (List.not_mem_nil f)
  | endTag tag =>
    simp only [frag] at hf
    split at hf
    next htag =>
      split at hf
      next => exact absurd hf (List.not_mem_nil f)
      next =>
        simp only [List.mem_singleton] at hf
        subst hf
        obtain ⟨hne, hnl⟩ :=
          (by decide : ∀ t ∈ ALLOWED_TAGS, ¬ t = [] ∧ '<' ∉ t) tag htag
        cases tag with
        | nil => exact absurd rfl hne
        | cons t₀ ts =>
          refine Or.inr ⟨'/', t₀, ts ++ ['>'], by simp, ?_, ?_⟩
          · intro hm
            rcases List.mem_cons.mp hm with h | h
            · exact absurd h (by decide)
            rcases List.mem_cons.mp h with h | h
            · exact hnl (h ▸ List.mem_cons_self _ _)
            rcases List.mem_append.mp h with h | h
            · exact hnl (List.mem_cons_of_mem _ h)
            · exact absurd h (by decide)
          · rintro ⟨h1, -⟩
            exact ha h1
    next => exact absurd hf (List.not_mem_nil f)
  | data s =>
    simp only [frag] at hf
    split at hf
    next => exact absurd hf (List.not_mem_nil f)
    next =>
      simp only [List.mem_singleton] at hf
      subst hf
      exact Or.inl (htmlEscape_no_lt true s)
  | entityRef n =>
    simp only [frag] at hf
    simp only [List.mem_singleton] at hf
    subst hf
    have hn : '<' ∉ n := of_decide_eq_true hev
    refine Or.inl ?_
    intro hm
    rcases List.mem_cons.mp hm with h | h
    · exact absurd h (by decide)
    rcases List.mem_append.mp h with h | h
    · exact hn h
    · exact absurd h (by decide)
  | charRef n =>
    simp only [frag] at hf
    simp only [List.mem_singleton] at hf
    subst hf
    have hn : '<' ∉ n := of_decide_eq_true hev
    refine Or.inl ?_
    intro hm
    rcases List.mem_cons.mp hm with h | h
    · exact absurd h (by decide)
    rcases List.mem_cons.mp h with h | h
    · exact absurd h (by decide)
    rcases List.mem_append.mp h with h | h
    · exact hn h
    · exact absurd h (by decide)
  | comment s =>
    exact absurd hf (List.not_mem_nil f)

/-- Claim C1, amended.  The sanitizer's output can contain `javascript:` and
`onerror=` (e.g. as correctly escaped text) and can even contain `<script` or
`<iframe` inside `href`/`src`/`style` attribute values, which pass through
unescaped (see the counterexample).  What does hold: for every tokenizer event
stream in which no attribute value and no reference name contains a literal
`<`, the output contains no `<script` and no `<iframe` substring — text is
HTML-escaped and tag markup is emitted only for allow-listed tag names, none
of which opens `script` or `iframe`. -/
theorem sanitizerNoScriptIframeOnLtFreeAttrs (evs : List Event)
    (h : ∀ ev ∈ evs, eventAttrsLtFree ev = true) :
    occursIn "<script".data (sanitizeEvents evs) = false ∧
    occursIn "<iframe".data (sanitizeEvents evs) = false := by
  have key : ∀ (a b : Char), ¬ ('/' : Char) = a → ¬ ('>' : Char) = b →
      ¬ (' ' : Char) = b → (∀ t ∈ ALLOWED_TAGS, tagFirstTwoOK a b t = true) →
      occursIn ['<', a, b] (sanitizeEvents evs) = false := by
    intro a b ha hb1 hb2 htwo
    unfold sanitizeEvents
    apply flatten_no_pattern
    intro f hf
    obtain ⟨ev, hev, hf2⟩ := List.mem_flatMap.mp hf
    exact frag_fragOK a b ha hb1 hb2 htwo ev (h ev hev) f hf2
  constructor
  · have hsc := key 's' 'c' (by decide) (by decide) (by decide) (by decide)
    cases hb : occursIn "<script".data (sanitizeEvents evs)
    · rfl
    · exfalso
      have hx : occursIn ['<', 's', 'c'] (sanitizeEvents evs) = true :=
        occursIn_mono_of_pre (by decide) hb
      rw [hx] at hsc
      exact Bool.noConfusion hsc
  · have hif := key 'i' 'f' (by decide) (by decide) (by decide) (by decide)
    cases hb : occursIn "<iframe".data (sanitizeEvents evs)
    · rfl
    · exfalso
      have hx : occursIn ['<', 'i', 'f'] (sanitizeEvents evs) = true :=
        occursIn_mono_of_pre (by decide) hb
      rw [hx] at hif
      exact Bool.noConfusion hif

/-- Witness for the amended claim C1 at a concrete benign event stream. -/
theorem sanitizerNoScriptIframeOnLtFreeAttrs_witness :
    (∀ ev ∈ evsFx, eventAttrsLtFree ev = true) ∧
    occursIn "<script".data (sanitizeEvents evsFx) = false ∧
    occursIn "<iframe".data (sanitizeEvents evsFx) = false :=
  ⟨by decide,
   (sanitizerNoScriptIframeOnLtFreeAttrs evsFx (by decide)).1,
   (sanitizerNoScriptIframeOnLtFreeAttrs evsFx (by decide)).2⟩

end Sanitizer

namespace Sanitizer

open Util

/-- Counterexample to claim C1 as stated: the plain-text input `javascript:`
is returned verbatim (correctly escaped text, but containing the banned
substring), and an `http://` URL whose tail is `<script` passes through the
`href` path unescaped, putting a literal `<script` into the output. -/
theorem sanitizerBannedSubstring_counterexample :
    occursIn "javascript:".data (_sanitize_rich_text "javascript:".data) = true ∧
    occursIn "onerror=".data (_sanitize_rich_text "onerror=".data) = true ∧
    occursIn "<script".data
      (_sanitize_rich_text "<a href=\"http://x/<script\">".data) = true := by
  refine ⟨?_, ?_, ?_⟩ <;> decide

/-- Claim C4: sanitizing is not idempotent.  The input `<a href=/x"y>`
carries a double quote in an unquoted attribute value; `_sanitize_url` passes
the value through unescaped, so the first pass emits `<a href="/x"y">`, whose
broken quoting the tokenizer re-parses on the second pass as `href="/x"` plus
a junk attribute `y"` that is then dropped: the second pass returns
`<a href="/x">`, not byte-identical to the first output. -/
theorem sanitizeRichTextNotIdempotent :
    _sanitize_rich_text "<a href=/x\"y>".data = "<a href=\"/x\"y\">".data ∧
    _sanitize_rich_text (_sanitize_rich_text "<a href=/x\"y>".data) =
      "<a href=\"/x\">".data ∧
    ¬ _sanitize_rich_text (_sanitize_rich_text "<a href=/x\"y>".data) =
        _sanitize_rich_text "<a href=/x\"y>".data := by
  refine ⟨?_, ?_, ?_⟩ <;> decide

end Sanitizer

namespace Util

/-! ### Additional generic list lemmas for the multipart development -/

section MultipartGenericLemmas

variable {α : Type} [DecidableEq α]

theorem nil_isPrefixOf (l : List α) : ([] : List α).isPrefixOf l = true := by
  cases l <;> rfl

theorem isPrefixOf_length_le {p s : List α} (h : p.isPrefixOf s = true) :
    p.length ≤ s.length := by
  induction p generalizing s with
  | nil => simp
  | cons a p ih =>
    cases s with
    | nil => exact absurd h (by simp [List.isPrefixOf])
    | cons b s =>
      simp only [List.isPrefixOf, Bool.and_eq_true] at h
      simpa using Nat.succ_le_succ (ih h.2)

theorem isPrefixOf_append_of_isPrefixOf {p x : List α} (y : List α)
    (h : p.isPrefixOf x = true) : p.isPrefixOf (x ++ y) = true := by
  induction p generalizing x with
  | nil => exact nil_isPrefixOf _
  | cons a p ih =>
    cases x with
    | nil => exact absurd h (by simp [List.isPrefixOf])
    | cons b x =>
      simp only [List.cons_append, List.isPrefixOf, Bool.and_eq_true] at h ⊢
      exact ⟨h.1, ih h.2⟩

theorem isPrefixOf_append_self (p y : List α) : p.isPrefixOf (p ++ y) = true :=
  isPrefixOf_append_of_isPrefixOf y (isPrefixOf_self p)

theorem isPrefixOf_append_eq_of_le {p x : List α} (y : List α)
    (h : p.length ≤ x.length) : p.isPrefixOf (x ++ y) = p.isPrefixOf x := by
  induction p generalizing x with
  | nil => rw [nil_isPrefixOf, nil_isPrefixOf]
  | cons a p ih =>
    cases x with
    | nil => simp at h
    | cons b x =>
      have h' : p.length ≤ x.length := by simpa using h
      simp only [List.cons_append, List.isPrefixOf]
      congr 1
      exact ih h'

theorem isPrefixOf_take_of_append {p x y : List α}
    (h : p.isPrefixOf (x ++ y) = true) :
    (p.take x.length).isPrefixOf x = true := by
  induction p generalizing x with
  | nil => simpa using nil_isPrefixOf x
  | cons a p ih =>
    cases x with
    | nil => exact nil_isPrefixOf []
    | cons b x =>
      simp only [List.cons_append, List.isPrefixOf, Bool.and_eq_true] at h
      simp only [List.length_cons, List.take_succ_cons, List.isPrefixOf,
        Bool.and_eq_true]
      exact ⟨h.1, ih h.2⟩

theorem occursIn_of_isPrefixOf {pat : List α} {a : α} {s : List α}
    (h : pat.isPrefixOf (a :: s) = true) : occursIn pat (a :: s) = true := by
  have : occursIn pat (a :: s) = (pat.isPrefixOf (a :: s) || occursIn pat s) := rfl
  rw [this, h, Bool.true_or]

theorem occursIn_length_le {pat s : List α} (h : occursIn pat s = true) :
    pat.length ≤ s.length := by
  induction s with
  | nil =>
    have hp : pat = [] := by
      have : pat.isEmpty = true := h
      exact List.isEmpty_iff.mp this
    simp [hp]
  | cons a r ih =>
    have h2 : (pat.isPrefixOf (a :: r) || occursIn pat r) = true := h
    rw [Bool.or_eq_true] at h2
    rcases h2 with h2 | h2
    · exact isPrefixOf_length_le h2
    · exact Nat.le_trans (ih h2) (Nat.le_succ _)

theorem occursIn_dropLast_self_false {sep : List α} (hsep : sep ≠ []) :
    occursIn sep sep.dropLast = false := by
  cases hx : occursIn sep sep.dropLast with
  | false => rfl
  | true =>
    exfalso
    have hle := occursIn_length_le hx
    rw [List.length_dropLast] at hle
    have : 0 < sep.length := List.length_pos.mpr hsep
    omega

theorem occursIn_append_free {p0 : α} {pt x w : List α} (hx : p0 ∉ x)
    (hw : occursIn (p0 :: pt) w = false) :
    occursIn (p0 :: pt) (x ++ w) = false := by
  induction x with
  | nil => simpa using hw
  | cons a x ih =>
    have ha : ¬ (p0 = a) := fun he => hx (by rw [he]; exact List.mem_cons_self a x)
    have hx' : p0 ∉ x := fun hm => hx (List.mem_cons_of_mem _ hm)
    have hbeg : (p0 == a) = false := by
      simp only [beq_eq_false_iff_ne, ne_eq]
      exact ha
    show ((p0 :: pt).isPrefixOf (a :: (x ++ w)) || occursIn (p0 :: pt) (x ++ w)) = false
    rw [ih hx']
    simp [List.isPrefixOf, hbeg]

theorem occursIn_head_not_mem {p0 : α} {pt x : List α} (hx : p0 ∉ x) :
    occursIn (p0 :: pt) x = false := by
  have h0 : occursIn (p0 :: pt) ([] : List α) = false := rfl
  simpa using occursIn_append_free hx h0

theorem findSub_append_sep {sep a t : List α} (hsep : sep ≠ [])
    (H : occursIn sep (a ++ sep.dropLast) = false) :
    findSub sep (a ++ (sep ++ t)) = some a.length := by
  induction a with
  | nil =>
    obtain ⟨s0, sep', hse⟩ : ∃ s0 sep', sep = s0 :: sep' := by
      cases sep with
      | nil => exact absurd rfl hsep
      | cons s0 sep' => exact ⟨s0, sep', rfl⟩
    subst hse
    have hpre : (s0 :: sep').isPrefixOf (s0 :: (sep' ++ t)) = true := by
      simpa using isPrefixOf_append_self (s0 :: sep') t
    show findSub (s0 :: sep') (s0 :: (sep' ++ t)) = some 0
    simp [findSub, hpre]
  | cons c a ih =>
    have H2 : (sep.isPrefixOf (c :: (a ++ sep.dropLast)) ||
        occursIn sep (a ++ sep.dropLast)) = false := H
    rw [Bool.or_eq_false_iff] at H2
    have hfalse : sep.isPrefixOf (c :: (a ++ (sep ++ t))) = false := by
      cases hx : sep.isPrefixOf (c :: (a ++ (sep ++ t))) with
      | false => rfl
      | true =>
        exfalso
        have hsep' := List.dropLast_append_getLast hsep
        have hsplit : c :: (a ++ (sep ++ t)) =
            (c :: (a ++ sep.dropLast)) ++ ([sep.getLast hsep] ++ t) := by
          conv_lhs => rw [← hsep']
          simp [List.append_assoc]
        rw [hsplit] at hx
        have hlen : sep.length ≤ (c :: (a ++ sep.dropLast)).length := by
          simp only [List.length_cons, List.length_append, List.length_dropLast]
          have : 0 < sep.length := List.length_pos.mpr hsep
          omega
        rw [isPrefixOf_append_eq_of_le _ hlen] at hx
        have hocc : occursIn sep (c :: (a ++ sep.dropLast)) = true :=
          occursIn_of_isPrefixOf hx
        have hexp : occursIn sep (c :: (a ++ sep.dropLast)) =
            (sep.isPrefixOf (c :: (a ++ sep.dropLast)) ||
              occursIn sep (a ++ sep.dropLast)) := rfl
        rw [hexp, H2.1, H2.2] at hocc
        exact Bool.noConfusion hocc
    have ihh := ih H2.2
    show (if sep.isPrefixOf (c :: (a ++ (sep ++ t))) = true then some 0
          else (findSub sep (a ++ (sep ++ t))).map (· + 1)) = some (c :: a).length
    rw [hfalse]
    simp [ihh]

theorem pysplitGo_fuel {sep : List α} (hsep : sep ≠ []) :
    ∀ f1 f2 s, s.length < f1 → s.length < f2 →
      pysplitGo sep f1 s = pysplitGo sep f2 s := by
  intro f1
  induction f1 with
  | zero => intro f2 s h1 h2; omega
  | succ f1 ih =>
    intro f2 s h1 h2
    cases f2 with
    | zero => omega
    | succ f2 =>
      have hne : sep.isEmpty = false := by
        cases sep with
        | nil => exact absurd rfl hsep
        | cons a l => rfl
      simp only [pysplitGo]
      cases hfind : findSub sep s with
      | none => simp only [hfind]
      | some i =>
        simp only [hfind]
        congr 1
        have hs : s ≠ [] := by
          intro he; subst he
          rw [show findSub sep ([] : List α) = none by simp [findSub, hne]] at hfind
          exact Option.noConfusion hfind
        have hsl : 0 < sep.length := List.length_pos.mpr hsep
        have hsl2 : 0 < s.length := List.length_pos.mpr hs
        have hlen : (s.drop (i + sep.length)).length < s.length := by
          rw [List.length_drop]
          omega
        refine ih f2 (s.drop (i + sep.length)) ?_ ?_ <;> omega

theorem pysplit_step {sep s : List α} {i : Nat} (hsep : sep ≠ [])
    (h : findSub sep s = some i) :
    pysplit sep s = s.take i :: pysplit sep (s.drop (i + sep.length)) := by
  have hne : sep.isEmpty = false := by
    cases sep with
    | nil => exact absurd rfl hsep
    | cons a l => rfl
  have hs : s ≠ [] := by
    intro he; subst he
    rw [show findSub sep ([] : List α) = none by simp [findSub, hne]] at h
    exact Option.noConfusion h
  have hsl : 0 < sep.length := List.length_pos.mpr hsep
  have hsl2 : 0 < s.length := List.length_pos.mpr hs
  have hlen : (s.drop (i + sep.length)).length < s.length := by
    rw [List.length_drop]
    omega
  unfold pysplit
  rw [if_neg (by rw [hne]; exact Bool.false_ne_true),
      if_neg (by rw [hne]; exact Bool.false_ne_true)]
  have hstep : pysplitGo sep (s.length + 1) s =
      s.take i :: pysplitGo sep s.length (s.drop (i + sep.length)) := by
    simp only [pysplitGo, h]
  rw [hstep]
  congr 1
  refine pysplitGo_fuel hsep _ _ _ ?_ ?_ <;> omega

theorem pysplit_append_sep {sep a t : List α} (hsep : sep ≠ [])
    (H : occursIn sep (a ++ sep.dropLast) = false) :
    pysplit sep (a ++ sep ++ t) = a :: pysplit sep t := by
  have hfind : findSub sep (a ++ (sep ++ t)) = some a.length :=
    findSub_append_sep hsep H
  rw [List.append_assoc, pysplit_step hsep hfind]
  have h1 : (a ++ (sep ++ t)).take a.length = a := take_len_append a (sep ++ t)
  have h2 : (a ++ (sep ++ t)).drop (a.length + sep.length) = t := by
    rw [show a ++ (sep ++ t) = (a ++ sep) ++ t from (List.append_assoc a sep t).symm,
        show a.length + sep.length = (a ++ sep).length from
          (List.length_append a sep).symm]
    exact drop_len_append (a ++ sep) t
  rw [h1, h2]

theorem pysplit_sep_head {sep t : List α} (hsep : sep ≠ []) :
    pysplit sep (sep ++ t) = [] :: pysplit sep t := by
  have H : occursIn sep (([] : List α) ++ sep.dropLast) = false := by
    simpa using occursIn_dropLast_self_false hsep
  simpa using pysplit_append_sep hsep H

theorem pypartition_append_sep {sep h t : List α} (hsep : sep ≠ [])
    (H : occursIn sep (h ++ sep.dropLast) = false) :
    pypartition sep (h ++ sep ++ t) = (h, true, t) := by
  have hfind : findSub sep (h ++ (sep ++ t)) = some h.length :=
    findSub_append_sep hsep H
  rw [List.append_assoc]
  simp only [pypartition, hfind]
  have h1 : (h ++ (sep ++ t)).take h.length = h := take_len_append h (sep ++ t)
  have h2 : (h ++ (sep ++ t)).drop (h.length + sep.length) = t := by
    rw [show h ++ (sep ++ t) = (h ++ sep) ++ t from (List.append_assoc h sep t).symm,
        show h.length + sep.length = (h ++ sep).length from
          (List.length_append h sep).symm]
    exact drop_len_append (h ++ sep) t
  rw [h1, h2]

theorem pysplit_framed {sep T : List α} (hsep : sep ≠ [])
    (hT : occursIn sep T = false) :
    ∀ blocks : List (List α),
      (∀ bl ∈ blocks, occursIn sep (bl ++ sep.dropLast) = false) →
      pysplit sep ((blocks.flatMap fun bl => sep ++ bl) ++ (sep ++ T)) =
        [] :: (blocks ++ [T]) := by
  have hne : sep.isEmpty = false := by
    cases sep with
    | nil => exact absurd rfl hsep
    | cons a l => rfl
  intro blocks
  induction blocks with
  | nil =>
    intro hfree
    simp only [List.flatMap_nil, List.nil_append]
    rw [pysplit_sep_head hsep, pysplit_no_occurrence hne hT]
  | cons bl bls ih =>
    intro hfree
    obtain ⟨W, hWeq⟩ : ∃ W, (bls.flatMap fun b' => sep ++ b') ++ (sep ++ T) =
        sep ++ W := by
      cases bls with
      | nil => exact ⟨T, by simp⟩
      | cons c cs =>
        exact ⟨c ++ ((cs.flatMap fun b' => sep ++ b') ++ (sep ++ T)),
          by simp [List.append_assoc]⟩
    have hLHS : ((bl :: bls).flatMap fun b' => sep ++ b') ++ (sep ++ T) =
        sep ++ (bl ++ (sep ++ W)) := by
      rw [List.flatMap_cons,
          show ((sep ++ bl) ++ (bls.flatMap fun b' => sep ++ b')) ++ (sep ++ T) =
            sep ++ (bl ++ ((bls.flatMap fun b' => sep ++ b') ++ (sep ++ T))) by
            simp [List.append_assoc],
          hWeq]
    rw [hLHS, pysplit_sep_head hsep]
    have hb : occursIn sep (bl ++ sep.dropLast) = false :=
      hfree bl (List.mem_cons_self _ _)
    have h2 : pysplit sep (bl ++ sep ++ W) = bl :: pysplit sep W :=
      pysplit_append_sep hsep hb
    rw [List.append_assoc] at h2
    rw [h2]
    have h3 : pysplit sep (sep ++ W) = [] :: pysplit sep W :=
      pysplit_sep_head hsep
    rw [← hWeq, ih (fun b hb' => hfree b (List.mem_cons_of_mem _ hb'))] at h3
    have h4 : pysplit sep W = bls ++ [T] := by
      injection h3 with h4a h4b
      exact h4b.symm
    rw [h4]
    simp

end MultipartGenericLemmas

end Util

namespace Util

/-! ### Stripping lemmas for the multipart development -/

theorem dropWhile_all_false {q : Char → Bool} {l : Str}
    (h : ∀ x ∈ l, q x = false) : l.dropWhile q = l := by
  cases l with
  | nil => rfl
  | cons a t =>
    have ha := h a (List.mem_cons_self _ _)
    simp [List.dropWhile, ha]

theorem dropWhileEnd_all_false {q : Char → Bool} {l : Str}
    (h : ∀ x ∈ l, q x = false) : dropWhileEnd q l = l := by
  unfold dropWhileEnd
  rw [dropWhile_all_false, List.reverse_reverse]
  intro x hx
  exact h x (List.mem_reverse.mp hx)

theorem pystrip_all_false {l : Str} (h : ∀ c ∈ l, isPyWs c = false) :
    pystrip l = l := by
  unfold pystrip
  rw [dropWhile_all_false h, dropWhileEnd_all_false h]

theorem pystrip_ws_cons {c : Char} {X : Str} (hc : isPyWs c = true) :
    pystrip (c :: X) = pystrip X := by
  unfold pystrip
  rw [show List.dropWhile isPyWs (c :: X) = List.dropWhile isPyWs X by
    simp [List.dropWhile, hc]]

theorem dropWhileEnd_append_last_false {q : Char → Bool} {p : Str} {d : Char}
    (hd : q d = false) : dropWhileEnd q (p ++ [d]) = p ++ [d] := by
  unfold dropWhileEnd
  rw [List.reverse_append]
  simp [List.dropWhile, hd]

theorem pystrip_cons_append {c d : Char} {Y : Str}
    (hc : isPyWs c = false) (hd : isPyWs d = false) :
    pystrip (c :: (Y ++ [d])) = c :: (Y ++ [d]) := by
  unfold pystrip
  rw [show List.dropWhile isPyWs (c :: (Y ++ [d])) = c :: (Y ++ [d]) by
    simp [List.dropWhile, hc]]
  have h2 : dropWhileEnd isPyWs ((c :: Y) ++ [d]) = (c :: Y) ++ [d] :=
    dropWhileEnd_append_last_false hd
  simpa using h2

theorem stripChar_wrap {c : Char} {m : Str} (hm : c ∉ m) :
    stripChar c (c :: (m ++ [c])) = m := by
  unfold stripChar
  rw [show List.dropWhile (fun x => x = c) (c :: (m ++ [c])) =
        List.dropWhile (fun x => x = c) (m ++ [c]) by simp [List.dropWhile]]
  cases m with
  | nil => simp [List.dropWhile, dropWhileEnd]
  | cons a m' =>
    have ha : ((fun x => decide (x = c)) a) = false := by
      simp only [decide_eq_false_iff_not]
      intro he
      exact hm (by rw [← he]; exact List.mem_cons_self a m')
    rw [show List.dropWhile (fun x => x = c) ((a :: m') ++ [c]) =
          (a :: m') ++ [c] by simp [List.dropWhile, ha]]
    rw [dropWhileEnd_append_sing (by simp) (a :: m')]
    apply dropWhileEnd_all_false
    intro x hx
    simp only [decide_eq_false_iff_not]
    intro he
    exact hm (he ▸ hx)

end Util

namespace HttpTypes

open Util

/-! ### UTF-8 codec lemmas -/

theorem utf8DecodeGo_ascii : ∀ (fuel : Nat) (l : List Nat), l.length < fuel →
    (∀ b ∈ l, b < 128) → utf8DecodeGo fuel l = l.map Char.ofNat := by
  intro fuel
  induction fuel with
  | zero => intro l h1 h2; exact absurd h1 (Nat.not_lt_zero _)
  | succ fuel ih =>
    intro l h1 h2
    cases l with
    | nil => rfl
    | cons b rest =>
      have hb : b < 0x80 := h2 b (List.mem_cons_self _ _)
      have h1' : rest.length < fuel := by
        simp only [List.length_cons] at h1; omega
      have h2' : ∀ x ∈ rest, x < 128 := fun x hx => h2 x (List.mem_cons_of_mem _ hx)
      simp only [utf8DecodeGo]
      rw [if_pos hb, ih rest h1' h2', List.map_cons]

theorem utf8DecodeReplace_ascii {l : List Nat} (h : ∀ b ∈ l, b < 128) :
    utf8DecodeReplace l = l.map Char.ofNat :=
  utf8DecodeGo_ascii (l.length + 1) l (Nat.lt_succ_self _) h

theorem utf8EncodeChar_ascii {c : Char} (h : c.toNat < 128) :
    utf8EncodeChar c = [c.toNat] := by
  unfold utf8EncodeChar
  dsimp only
  rw [if_pos h]

theorem utf8Encode_ascii {s : Str} (h : ∀ c ∈ s, c.toNat < 128) :
    utf8Encode s = s.map Char.toNat := by
  induction s with
  | nil => rfl
  | cons c rest ih =>
    have hc := h c (List.mem_cons_self _ _)
    have h' : ∀ x ∈ rest, x.toNat < 128 := fun x hx => h x (List.mem_cons_of_mem _ hx)
    simp only [utf8Encode] at ih ⊢
    rw [List.flatMap_cons, utf8EncodeChar_ascii hc, ih h', List.map_cons,
      List.singleton_append]

theorem map_toNat_ofNat (l : Str) :
    (l.map Char.toNat).map Char.ofNat = l := by
  rw [List.map_map]
  have he : (Char.ofNat ∘ Char.toNat) = id := funext fun c => Char.ofNat_toNat c
  rw [he, List.map_id]

theorem mem_map_toNat_lt {s : Str} (hs : ∀ c ∈ s, c.toNat < 128) :
    ∀ b ∈ s.map Char.toNat, b < 128 := by
  intro b hb
  obtain ⟨c, hc, hrw⟩ := List.mem_map.mp hb
  rw [← hrw]
  exact hs c hc

theorem eq_ofNat_of_toNat_eq {c : Char} {n : Nat} (h : c.toNat = n) :
    c = Char.ofNat n := by
  rw [← h, Char.ofNat_toNat]

theorem not_mem_map_toNat {s : Str} {n : Nat} (d : Char) (hd : Char.ofNat n = d)
    (h : ∀ c ∈ s, c ≠ d) : n ∉ s.map Char.toNat := by
  intro hmem
  obtain ⟨c, hc, hcn⟩ := List.mem_map.mp hmem
  exact h c hc (by rw [eq_ofNat_of_toNat_eq hcn, hd])

/-! ### Boundary extraction -/

theorem boundaryLoop_skip (x : Str) (rest : List Str)
    (hx : ("boundary=".data).isPrefixOf (pystrip x) = false) :
    boundaryLoop (x :: rest) = boundaryLoop rest := by
  simp only [boundaryLoop, hx, Bool.false_eq_true, if_false]

theorem extractBoundary_eq {b : Str} (hb : wfBoundary b) :
    extractBoundary ("multipart/form-data; boundary=".data ++ b) = b := by
  obtain ⟨hbne, hbc⟩ := hb
  have hsplit : pysplit [';'] ("multipart/form-data; boundary=".data ++ b) =
      ["multipart/form-data".data, " boundary=".data ++ b] := by
    have h0 : ("multipart/form-data; boundary=".data : Str) =
        "multipart/form-data".data ++ [';'] ++ " boundary=".data := by decide
    have he : "multipart/form-data; boundary=".data ++ b =
        "multipart/form-data".data ++ [';'] ++ (" boundary=".data ++ b) := by
      rw [h0]; simp [List.append_assoc]
    rw [he, pysplit_append_sep (by decide) (by decide)]
    have hocc : occursIn [';'] (" boundary=".data ++ b) = false := by
      apply occursIn_head_not_mem
      intro hmem
      rcases List.mem_append.mp hmem with h | h
      · exact absurd h (by decide)
      · exact (hbc ';' h).2.2.1 rfl
    rw [pysplit_no_occurrence (by decide) hocc]
  unfold extractBoundary
  rw [hsplit, boundaryLoop_skip _ _ (by decide)]
  have hps : pystrip (" boundary=".data ++ b) = "boundary=".data ++ b := by
    have h1 : " boundary=".data ++ b = ' ' :: ("boundary=".data ++ b) := rfl
    rw [h1, pystrip_ws_cons (by decide)]
    apply pystrip_all_false
    intro c hc
    rcases List.mem_append.mp hc with h | h
    · have hall : ∀ c ∈ ("boundary=".data : Str), isPyWs c = false := by decide
      exact hall c h
    · exact (hbc c h).2.1
  have hfind : findSub ['='] ("boundary=".data ++ b) = some 8 := by
    have h2 : "boundary=".data ++ b = "boundary".data ++ '=' :: b := rfl
    rw [h2, findSub_single_append b (by decide)]
    rfl
  have hgetD : (pysplit1 ['='] ("boundary=".data ++ b)).getD 1 [] = b := by
    simp only [pysplit1, hfind]
    show ("boundary=".data ++ b).drop ("boundary=".data).length = b
    exact drop_len_append _ _
  have hpb : pystrip b = b := by
    apply pystrip_all_false
    intro c hc
    exact (hbc c hc).2.1
  have hq : ¬ (b.head? = some '"' ∧ b.getLast? = some '"') := by
    rintro ⟨h1, -⟩
    have hmem : '"' ∈ b := List.mem_of_mem_head? h1
    exact (hbc '"' hmem).2.2.2.1 rfl
  simp only [boundaryLoop, hps, isPrefixOf_append_self, if_pos, hgetD, hpb]
  rw [if_neg hq]

/-! ### Structure of a part's header block -/

theorem fnPartB_ascii {p : Part} (hp : wfPart p) :
    ∀ x ∈ fnPartB p, x < 128 := by
  obtain ⟨hn0, hnf, hfnf, hctf⟩ := hp
  unfold fnPartB
  cases hfn : p.filename with
  | none => intro x hx; simp at hx
  | some fn =>
    refine List.forall_mem_append.mpr ⟨List.forall_mem_append.mpr ⟨?_, ?_⟩, ?_⟩
    · decide
    · exact mem_map_toNat_lt fun c hc => ((hfnf fn hfn) c hc).1
    · decide

theorem ctPartB_ascii {p : Part} (hp : wfPart p) :
    ∀ x ∈ ctPartB p, x < 128 := by
  obtain ⟨hn0, hnf, hfnf, hctf⟩ := hp
  unfold ctPartB
  cases hct : p.ctype with
  | none => intro x hx; simp at hx
  | some ct =>
    refine List.forall_mem_append.mpr ⟨?_, ?_⟩
    · decide
    · exact mem_map_toNat_lt fun c hc => (((hctf ct hct).2.2) c hc).1

theorem dispB_ascii {p : Part} (hp : wfPart p) :
    ∀ x ∈ dispB p, x < 128 := by
  unfold dispB
  refine List.forall_mem_append.mpr
    ⟨List.forall_mem_append.mpr ⟨List.forall_mem_append.mpr ⟨?_, ?_⟩, ?_⟩, ?_⟩
  · decide
  · exact mem_map_toNat_lt fun c hc => ((hp.2.1) c hc).1
  · decide
  · exact fnPartB_ascii hp

theorem partHeaders_ascii {p : Part} (hp : wfPart p) :
    ∀ x ∈ partHeaders p, x < 128 := by
  unfold partHeaders
  exact List.forall_mem_append.mpr ⟨dispB_ascii hp, ctPartB_ascii hp⟩

theorem dispB_no13 {p : Part} (hp : wfPart p) : (13 : Nat) ∉ dispB p := by
  obtain ⟨hn0, hnf, hfnf, hctf⟩ := hp
  unfold dispB fnPartB
  intro hx
  rcases List.mem_append.mp hx with hx | hx
  · rcases List.mem_append.mp hx with hx | hx
    · rcases List.mem_append.mp hx with hx | hx
      · exact absurd hx (by decide)
      · exact not_mem_map_toNat '\r' (by decide)
          (fun c hc => (hnf c hc).2.2.2.1) hx
    · exact absurd hx (by decide)
  · cases hfn : p.filename with
    | none => rw [hfn] at hx; simp at hx
    | some fn =>
      rw [hfn] at hx
      rcases List.mem_append.mp hx with hx | hx
      · rcases List.mem_append.mp hx with hx | hx
        · exact absurd hx (by decide)
        · exact not_mem_map_toNat '\r' (by decide)
            (fun c hc => ((hfnf fn hfn) c hc).2.2.2.1) hx
      · exact absurd hx (by decide)

theorem ctHdrB_no13 {ct : Str} (hct : wfCtype ct) :
    (13 : Nat) ∉ asciiB "Content-Type: " ++ ct.map Char.toNat := by
  intro hx
  rcases List.mem_append.mp hx with hx | hx
  · exact absurd hx (by decide)
  · exact not_mem_map_toNat '\r' (by decide)
      (fun c hc => ((hct.2.2) c hc).2.1) hx

theorem map_ofNat_asciiB (s : String) : (asciiB s).map Char.ofNat = s.data :=
  map_toNat_ofNat s.data

theorem decode_partHeaders {p : Part} (hp : wfPart p) :
    utf8DecodeReplace (partHeaders p) =
      dispLine p ++ (match p.ctype with
        | some ct => '\r' :: '\n' :: ctLine ct
        | none => []) := by
  rw [utf8DecodeReplace_ascii (partHeaders_ascii hp)]
  have hlit : ("\r\nContent-Type: ".data : Str) =
      '\r' :: '\n' :: "Content-Type: ".data := rfl
  unfold partHeaders dispB fnPartB ctPartB dispLine ctLine
  cases p.filename <;> cases p.ctype <;>
    simp only [List.map_append, map_ofNat_asciiB, map_toNat_ofNat, hlit,
      List.append_assoc, List.cons_append, List.append_nil, List.nil_append,
      List.map_nil]

theorem occursIn_crlf2_ctline {C R : List Nat} (hC : C = 67 :: R)
    (h13 : (13 : Nat) ∉ C) :
    occursIn ([13,10,13,10] : List Nat) ((13 :: 10 :: C) ++ [13,10,13]) = false := by
  subst hC
  have hrest2 : occursIn ([13,10,13,10] : List Nat) ((67 :: R) ++ [13,10,13]) = false :=
    occursIn_append_free h13 (by decide)
  have hpre1 : ([13,10,13,10] : List Nat).isPrefixOf
      ((13 :: 10 :: 67 :: R) ++ [13,10,13]) = false := by
    simp [List.isPrefixOf]
  have hpre2 : ([13,10,13,10] : List Nat).isPrefixOf
      ((10 :: 67 :: R) ++ [13,10,13]) = false := by
    simp [List.isPrefixOf]
  have e1 : occursIn ([13,10,13,10] : List Nat) ((13 :: 10 :: 67 :: R) ++ [13,10,13]) =
      (([13,10,13,10] : List Nat).isPrefixOf ((13 :: 10 :: 67 :: R) ++ [13,10,13]) ||
        occursIn ([13,10,13,10] : List Nat) ((10 :: 67 :: R) ++ [13,10,13])) := rfl
  have e2 : occursIn ([13,10,13,10] : List Nat) ((10 :: 67 :: R) ++ [13,10,13]) =
      (([13,10,13,10] : List Nat).isPrefixOf ((10 :: 67 :: R) ++ [13,10,13]) ||
        occursIn ([13,10,13,10] : List Nat) ((67 :: R) ++ [13,10,13])) := rfl
  show occursIn ([13,10,13,10] : List Nat) ((13 :: 10 :: 67 :: R) ++ [13,10,13]) = false
  rw [e1, hpre1, e2, hpre2, hrest2]
  rfl

theorem partHeaders_sepfree {p : Part} (hp : wfPart p) :
    occursIn (asciiB "\r\n\r\n") (partHeaders p ++ (asciiB "\r\n\r\n").dropLast) =
      false := by
  have hctf := hp.2.2.2
  show occursIn ((13 : Nat) :: [10,13,10]) (partHeaders p ++ [13,10,13]) = false
  unfold partHeaders
  cases hct : p.ctype with
  | none =>
    rw [show ctPartB p = [] by unfold ctPartB; rw [hct], List.append_nil]
    exact occursIn_append_free (dispB_no13 hp) (by decide)
  | some ct =>
    have hctb : ctPartB p =
        13 :: 10 :: (asciiB "Content-Type: " ++ ct.map Char.toNat) := by
      unfold ctPartB; rw [hct]
      rfl
    rw [hctb, List.append_assoc]
    refine occursIn_append_free (dispB_no13 hp) ?_
    exact occursIn_crlf2_ctline rfl (ctHdrB_no13 (hctf ct hct))

theorem dispLine_noCR {p : Part} (hp : wfPart p) : '\r' ∉ dispLine p := by
  obtain ⟨hn0, hnf, hfnf, hctf⟩ := hp
  unfold dispLine
  intro hx
  rcases List.mem_append.mp hx with hx | hx
  · rcases List.mem_append.mp hx with hx | hx
    · rcases List.mem_append.mp hx with hx | hx
      · exact absurd hx (by decide)
      · exact (hnf '\r' hx).2.2.2.1 rfl
    · exact absurd hx (by decide)
  · cases hfn : p.filename with
    | none => rw [hfn] at hx; simp at hx
    | some fn =>
      rw [hfn] at hx
      rcases List.mem_append.mp hx with hx | hx
      · rcases List.mem_append.mp hx with hx | hx
        · exact absurd hx (by decide)
        · exact ((hfnf fn hfn) '\r' hx).2.2.2.1 rfl
      · exact absurd hx (by decide)

theorem ctLine_noCR {ct : Str} (hct : wfCtype ct) : '\r' ∉ ctLine ct := by
  unfold ctLine
  intro hx
  rcases List.mem_append.mp hx with hx | hx
  · exact absurd hx (by decide)
  · exact ((hct.2.2) '\r' hx).2.1 rfl

theorem headerLines_eq {p : Part} (hp : wfPart p) :
    pysplit ("\r\n".data) (utf8DecodeReplace (partHeaders p)) =
      match p.ctype with
      | some ct => [dispLine p, ctLine ct]
      | none => [dispLine p] := by
  rw [decode_partHeaders hp]
  cases hct : p.ctype with
  | none =>
    show pysplit ("\r\n".data) (dispLine p ++ []) = [dispLine p]
    rw [List.append_nil]
    exact pysplit_no_occurrence (by decide)
      (occursIn_head_not_mem (dispLine_noCR hp))
  | some ct =>
    have hws : wfCtype ct := hp.2.2.2 ct hct
    show pysplit ("\r\n".data) (dispLine p ++ ('\r' :: '\n' :: ctLine ct)) =
      [dispLine p, ctLine ct]
    have h1 : pysplit ("\r\n".data) (dispLine p ++ "\r\n".data ++ ctLine ct) =
        dispLine p :: pysplit ("\r\n".data) (ctLine ct) := by
      refine pysplit_append_sep (by decide) ?_
      show occursIn ('\r' :: ['\n']) (dispLine p ++ ['\r']) = false
      exact occursIn_append_free (dispLine_noCR hp) (by decide)
    rw [show dispLine p ++ ('\r' :: '\n' :: ctLine ct) =
          dispLine p ++ "\r\n".data ++ ctLine ct by rw [List.append_assoc]; rfl]
    rw [h1, pysplit_no_occurrence (by decide)
      (occursIn_head_not_mem (ctLine_noCR hws))]

theorem headerScan_dispLine (p : Part) (dc : Str × Str) :
    headerScan dc (dispLine p) = (dispLine p, dc.2) := by
  have hpre : ("content-disposition".data).isPrefixOf (pylower (dispLine p)) =
      true := by
    unfold dispLine pylower
    rw [List.map_append]
    apply isPrefixOf_append_of_isPrefixOf
    rw [List.map_append]
    apply isPrefixOf_append_of_isPrefixOf
    rw [List.map_append]
    apply isPrefixOf_append_of_isPrefixOf
    decide
  simp only [headerScan]
  rw [if_pos hpre]

theorem headerScan_ctLine (ct : Str) (dc : Str × Str) :
    headerScan dc (ctLine ct) = (dc.1, ctLine ct) := by
  have hnd : ("content-disposition".data).isPrefixOf (pylower (ctLine ct)) =
      false := by
    cases hx : ("content-disposition".data).isPrefixOf (pylower (ctLine ct)) with
    | false => rfl
    | true =>
      exfalso
      unfold ctLine pylower at hx
      rw [List.map_append] at hx
      have htake := isPrefixOf_take_of_append hx
      exact absurd htake (by decide)
  have hct2 : ("content-type".data).isPrefixOf (pylower (ctLine ct)) = true := by
    unfold ctLine pylower
    rw [List.map_append]
    apply isPrefixOf_append_of_isPrefixOf
    decide
  simp only [headerScan]
  rw [if_neg (by rw [hnd]; exact Bool.false_ne_true), if_pos hct2]

theorem dcEval {p : Part} (hp : wfPart p) :
    (pysplit ("\r\n".data) (utf8DecodeReplace (partHeaders p))).foldl
        headerScan ([], []) =
      (dispLine p, match p.ctype with | some ct => ctLine ct | none => []) := by
  rw [headerLines_eq hp]
  cases hct : p.ctype with
  | none =>
    simp only [List.foldl_cons, List.foldl_nil]
    rw [headerScan_dispLine]
  | some ct =>
    simp only [List.foldl_cons, List.foldl_nil]
    rw [headerScan_dispLine, headerScan_ctLine]

theorem nmPiece_no_semicolon {n : Str} (hn : wfField n) :
    occursIn [';'] (" name=\"".data ++ n ++ "\"".data) = false := by
  apply occursIn_head_not_mem
  intro hx
  rcases List.mem_append.mp hx with hx | hx
  · rcases List.mem_append.mp hx with hx | hx
    · exact absurd hx (by decide)
    · exact (hn ';' hx).2.1 rfl
  · exact absurd hx (by decide)

theorem fnPiece_no_semicolon {fn : Str} (hfn : wfField fn) :
    occursIn [';'] (" filename=\"".data ++ fn ++ "\"".data) = false := by
  apply occursIn_head_not_mem
  intro hx
  rcases List.mem_append.mp hx with hx | hx
  · rcases List.mem_append.mp hx with hx | hx
    · exact absurd hx (by decide)
    · exact (hfn ';' hx).2.1 rfl
  · exact absurd hx (by decide)

theorem dispPieces_eq {p : Part} (hp : wfPart p) :
    pysplit [';'] (dispLine p) =
      match p.filename with
      | some fn =>
        ["Content-Disposition: form-data".data, nmPiece p.name, fnPiece fn]
      | none => ["Content-Disposition: form-data".data, nmPiece p.name] := by
  obtain ⟨hn0, hnf, hfnf, hctf⟩ := hp
  unfold dispLine
  cases hfn : p.filename with
  | none =>
    show pysplit [';'] ("Content-Disposition: form-data; name=\"".data ++
        p.name ++ "\"".data ++ []) =
      ["Content-Disposition: form-data".data, nmPiece p.name]
    rw [List.append_nil,
      show ("Content-Disposition: form-data; name=\"".data ++ p.name ++
          "\"".data : Str) =
        "Content-Disposition: form-data".data ++ [';'] ++
          (" name=\"".data ++ p.name ++ "\"".data) by
        rw [show ("Content-Disposition: form-data; name=\"".data : Str) =
            "Content-Disposition: form-data".data ++ [';'] ++ " name=\"".data
          by decide]
        simp [List.append_assoc]]
    rw [pysplit_append_sep (by decide) (by decide),
      pysplit_no_occurrence (by decide) (nmPiece_no_semicolon hnf)]
    rfl
  | some fn =>
    show pysplit [';'] ("Content-Disposition: form-data; name=\"".data ++
        p.name ++ "\"".data ++ ("; filename=\"".data ++ fn ++ "\"".data)) =
      ["Content-Disposition: form-data".data, nmPiece p.name, fnPiece fn]
    rw [show ("Content-Disposition: form-data; name=\"".data ++ p.name ++
          "\"".data ++ ("; filename=\"".data ++ fn ++ "\"".data) : Str) =
        "Content-Disposition: form-data".data ++ [';'] ++
          ((" name=\"".data ++ p.name ++ "\"".data) ++ [';'] ++
            (" filename=\"".data ++ fn ++ "\"".data)) by
      rw [show ("Content-Disposition: form-data; name=\"".data : Str) =
          "Content-Disposition: form-data".data ++ [';'] ++ " name=\"".data
        by decide,
        show ("; filename=\"".data : Str) = [';'] ++ " filename=\"".data
        by decide]
      simp [List.append_assoc]]
    rw [pysplit_append_sep (by decide) (by decide)]
    rw [pysplit_append_sep (by decide) ?hcond]
    case hcond =>
      rw [show ([';'] : Str).dropLast = [] from rfl, List.append_nil]
      exact nmPiece_no_semicolon hnf
    rw [pysplit_no_occurrence (by decide) (fnPiece_no_semicolon (hfnf fn hfn))]
    rfl

theorem dispScan_skipFirst (nf : Str × Option Str) :
    dispScan nf ("Content-Disposition: form-data".data) = nf := by
  simp only [dispScan]
  rw [if_neg (by decide), if_neg (by decide)]

theorem dispScan_nmPiece {n : Str} (hn : wfField n) (nf : Str × Option Str) :
    dispScan nf (nmPiece n) = (n, nf.2) := by
  have hps : pystrip (nmPiece n) = "name=\"".data ++ n ++ "\"".data := by
    unfold nmPiece
    rw [show (" name=\"".data ++ n ++ "\"".data : Str) =
        ' ' :: ("name=\"".data ++ n ++ "\"".data) from rfl,
      pystrip_ws_cons (by decide),
      show ("name=\"".data ++ n ++ "\"".data : Str) =
        'n' :: (("ame=\"".data ++ n) ++ ['"']) from rfl,
      pystrip_cons_append (by decide) (by decide)]
  have hpre : ("name=".data).isPrefixOf ("name=\"".data ++ n ++ "\"".data) =
      true := by
    rw [show ("name=\"".data ++ n ++ "\"".data : Str) =
        "name=".data ++ ('"' :: (n ++ "\"".data)) from rfl]
    exact isPrefixOf_append_self _ _
  have hfind : findSub ['='] ("name=\"".data ++ n ++ "\"".data) = some 4 := by
    rw [show ("name=\"".data ++ n ++ "\"".data : Str) =
        "name".data ++ '=' :: ('"' :: (n ++ "\"".data)) from rfl,
      findSub_single_append _ (by decide)]
    rfl
  have hgd : (pysplit1 ['='] ("name=\"".data ++ n ++ "\"".data)).getD 1 [] =
      '"' :: (n ++ "\"".data) := by
    simp only [pysplit1, hfind]
    show ("name=\"".data ++ n ++ "\"".data).drop ("name=".data).length =
      '"' :: (n ++ "\"".data)
    rw [show ("name=\"".data ++ n ++ "\"".data : Str) =
        "name=".data ++ ('"' :: (n ++ "\"".data)) from rfl]
    exact drop_len_append _ _
  have hstrip : stripChar '"' ('"' :: (n ++ "\"".data)) = n := by
    rw [show ('"' : Char) :: (n ++ "\"".data) = '"' :: (n ++ ['"']) from rfl]
    exact stripChar_wrap (fun hx => (hn '"' hx).2.2.1 rfl)
  simp only [dispScan]
  rw [hps, if_pos hpre, hgd, hstrip]

theorem dispScan_fnPiece {fn : Str} (hfn : wfField fn) (nf : Str × Option Str) :
    dispScan nf (fnPiece fn) = (nf.1, some fn) := by
  have hps : pystrip (fnPiece fn) = "filename=\"".data ++ fn ++ "\"".data := by
    unfold fnPiece
    rw [show (" filename=\"".data ++ fn ++ "\"".data : Str) =
        ' ' :: ("filename=\"".data ++ fn ++ "\"".data) from rfl,
      pystrip_ws_cons (by decide),
      show ("filename=\"".data ++ fn ++ "\"".data : Str) =
        'f' :: (("ilename=\"".data ++ fn) ++ ['"']) from rfl,
      pystrip_cons_append (by decide) (by decide)]
  have hnd : ("name=".data).isPrefixOf ("filename=\"".data ++ fn ++ "\"".data) =
      false := by
    cases hx : ("name=".data).isPrefixOf ("filename=\"".data ++ fn ++ "\"".data) with
    | false => rfl
    | true =>
      exfalso
      rw [show ("filename=\"".data ++ fn ++ "\"".data : Str) =
          "filename=\"".data ++ (fn ++ "\"".data) from
        List.append_assoc _ _ _] at hx
      have htake := isPrefixOf_take_of_append hx
      exact absurd htake (by decide)
  have hpre : ("filename=".data).isPrefixOf
      ("filename=\"".data ++ fn ++ "\"".data) = true := by
    rw [show ("filename=\"".data ++ fn ++ "\"".data : Str) =
        "filename=".data ++ ('"' :: (fn ++ "\"".data)) from rfl]
    exact isPrefixOf_append_self _ _
  have hfind : findSub ['='] ("filename=\"".data ++ fn ++ "\"".data) =
      some 8 := by
    rw [show ("filename=\"".data ++ fn ++ "\"".data : Str) =
        "filename".data ++ '=' :: ('"' :: (fn ++ "\"".data)) from rfl,
      findSub_single_append _ (by decide)]
    rfl
  have hgd : (pysplit1 ['='] ("filename=\"".data ++ fn ++ "\"".data)).getD 1 [] =
      '"' :: (fn ++ "\"".data) := by
    simp only [pysplit1, hfind]
    show ("filename=\"".data ++ fn ++ "\"".data).drop ("filename=".data).length =
      '"' :: (fn ++ "\"".data)
    rw [show ("filename=\"".data ++ fn ++ "\"".data : Str) =
        "filename=".data ++ ('"' :: (fn ++ "\"".data)) from rfl]
    exact drop_len_append _ _
  have hstrip : stripChar '"' ('"' :: (fn ++ "\"".data)) = fn := by
    rw [show ('"' : Char) :: (fn ++ "\"".data) = '"' :: (fn ++ ['"']) from rfl]
    exact stripChar_wrap (fun hx => (hfn '"' hx).2.2.1 rfl)
  simp only [dispScan]
  rw [hps, if_neg (by rw [hnd]; exact Bool.false_ne_true), if_pos hpre, hgd,
    hstrip]

theorem ctValue_eq {ct : Str} (hct : wfCtype ct) :
    pystrip (pypartition [':'] (ctLine ct)).2.2 = ct := by
  have hfind : findSub [':'] (ctLine ct) = some 12 := by
    rw [show ctLine ct = "Content-Type".data ++ ':' :: (' ' :: ct) from rfl,
      findSub_single_append _ (by decide)]
    rfl
  simp only [pypartition, hfind]
  show pystrip ((ctLine ct).drop ("Content-Type:".data).length) = ct
  rw [show ctLine ct = "Content-Type:".data ++ (' ' :: ct) from rfl,
    drop_len_append, pystrip_ws_cons (by decide), hct.2.1]

theorem dispLine_ne_nil (p : Part) : dispLine p ≠ [] := by
  have h : ∃ R, dispLine p = 'C' :: R := ⟨_, rfl⟩
  obtain ⟨R, hR⟩ := h
  rw [hR]
  exact List.cons_ne_nil _ _

theorem ctLine_ne_nil (ct : Str) : ctLine ct ≠ [] := by
  have h : ∃ R, ctLine ct = 'C' :: R := ⟨_, rfl⟩
  obtain ⟨R, hR⟩ := h
  rw [hR]
  exact List.cons_ne_nil _ _

theorem isSuffixOf_append_self {α : Type} [DecidableEq α] (y p : List α) :
    p.isSuffixOf (y ++ p) = true := by
  unfold List.isSuffixOf
  rw [List.reverse_append]
  exact isPrefixOf_append_self _ _

theorem partBlock_length (p : Part) :
    (partBlock p).length = (partHeaders p).length + p.content.length + 8 := by
  have l1 : (asciiB "\r\n").length = 2 := by decide
  have l2 : (asciiB "\r\n\r\n").length = 4 := by decide
  unfold partBlock
  simp only [List.length_append, l1, l2]
  omega

theorem partHeaders_length_ge (p : Part) : 38 ≤ (partHeaders p).length := by
  have l1 : (asciiB "Content-Disposition: form-data; name=\"").length = 38 := by
    decide
  unfold partHeaders dispB
  simp only [List.length_append, l1]
  omega

theorem parseSegment_partBlock {p : Part} (acc : FormAcc) (hp : wfPart p) :
    parseSegment acc (partBlock p) = expectedStep acc p := by
  have h0 := hp
  obtain ⟨hn0, hnf, hfnf, hctf⟩ := h0
  have hlenall : ∀ L : List Nat, L.length ≤ 6 → ¬ partBlock p = L := by
    intro L hL h
    have hc := congrArg List.length h
    rw [partBlock_length] at hc
    have hh := partHeaders_length_ge p
    omega
  have hpre2 : (asciiB "\r\n").isPrefixOf (partBlock p) = true := by
    rw [show partBlock p = asciiB "\r\n" ++
        (partHeaders p ++ asciiB "\r\n\r\n" ++ p.content ++ asciiB "\r\n") by
      unfold partBlock; simp [List.append_assoc]]
    exact isPrefixOf_append_self _ _
  have hdrop : (partBlock p).drop 2 =
      partHeaders p ++ asciiB "\r\n\r\n" ++ p.content ++ asciiB "\r\n" := by
    rw [show partBlock p = asciiB "\r\n" ++
        (partHeaders p ++ asciiB "\r\n\r\n" ++ p.content ++ asciiB "\r\n") by
      unfold partBlock; simp [List.append_assoc]]
    exact drop_len_append (asciiB "\r\n")
      (partHeaders p ++ asciiB "\r\n\r\n" ++ p.content ++ asciiB "\r\n")
  have hsfx : (asciiB "\r\n").isSuffixOf
      (partHeaders p ++ asciiB "\r\n\r\n" ++ p.content ++ asciiB "\r\n") = true :=
    isSuffixOf_append_self (partHeaders p ++ asciiB "\r\n\r\n" ++ p.content)
      (asciiB "\r\n")
  have htake : (partHeaders p ++ asciiB "\r\n\r\n" ++ p.content ++
        asciiB "\r\n").take ((partHeaders p ++ asciiB "\r\n\r\n" ++ p.content ++
        asciiB "\r\n").length - 2) =
      partHeaders p ++ asciiB "\r\n\r\n" ++ p.content := by
    rw [show (partHeaders p ++ asciiB "\r\n\r\n" ++ p.content ++
        asciiB "\r\n").length =
        (partHeaders p ++ asciiB "\r\n\r\n" ++ p.content).length +
          (asciiB "\r\n").length from List.length_append _ _,
      show ((asciiB "\r\n").length : Nat) = 2 from by decide,
      Nat.add_sub_cancel]
    exact take_len_append _ _
  have hpart : pypartition (asciiB "\r\n\r\n")
      (partHeaders p ++ asciiB "\r\n\r\n" ++ p.content) =
      (partHeaders p, true, p.content) :=
    pypartition_append_sep (by decide) (partHeaders_sepfree hp)
  unfold parseSegment
  rw [if_neg (hlenall [] (by decide))]
  rw [if_neg (show ¬ (partBlock p = asciiB "--\r\n" ∨ partBlock p = asciiB "--" ∨
      partBlock p = asciiB "\r\n--" ∨ partBlock p = asciiB "--\r\n--") by
    rintro (h | h | h | h)
    · exact hlenall _ (by decide) h
    · exact hlenall _ (by decide) h
    · exact hlenall _ (by decide) h
    · exact hlenall _ (by decide) h)]
  dsimp only
  rw [if_pos hpre2, hdrop, if_pos hsfx, htake, hpart]
  dsimp only
  rw [if_neg (show ¬ (true = false) by decide)]
  rw [dcEval hp]
  dsimp only
  rw [if_neg (dispLine_ne_nil p)]
  rw [dispPieces_eq hp]
  unfold expectedStep
  cases hfn : p.filename with
  | none =>
    simp only [List.foldl_cons, List.foldl_nil]
    rw [dispScan_skipFirst, dispScan_nmPiece hnf]
    dsimp only
    rw [if_neg hn0]
  | some fn =>
    simp only [List.foldl_cons, List.foldl_nil]
    rw [dispScan_skipFirst, dispScan_nmPiece hnf, dispScan_fnPiece (hfnf fn hfn)]
    dsimp only
    rw [if_neg hn0]
    by_cases hfe : fn = []
    · rw [if_pos hfe, if_pos hfe]
    · rw [if_neg hfe, if_neg hfe]
      cases hct : p.ctype with
      | none =>
        dsimp only
        rw [if_pos rfl]
      | some ct =>
        have hctw : wfCtype ct := hctf ct hct
        dsimp only
        rw [if_neg (ctLine_ne_nil ct), ctValue_eq hctw, if_neg hctw.1]

theorem sepBytes_eq {b : Str} (hb : wfBoundary b) :
    utf8Encode ("--".data ++ b) = 45 :: 45 :: b.map Char.toNat := by
  have hascii : ∀ c ∈ "--".data ++ b, c.toNat < 128 := by
    intro c hc
    rcases List.mem_append.mp hc with hc | hc
    · have hall : ∀ c ∈ ("--".data : Str), c.toNat < 128 := by decide
      exact hall c hc
    · exact (hb.2 c hc).1
  rw [utf8Encode_ascii hascii, List.map_append]
  rfl

theorem tail_sepfree_gen {x : Nat} {r : List Nat} (h13 : (x == 13) = false) :
    occursIn (45 :: 45 :: x :: r) ([45,45,13,10] : List Nat) = false := by
  have e : occursIn (45 :: 45 :: x :: r) ([45,45,13,10] : List Nat) =
      ((45 :: 45 :: x :: r).isPrefixOf [45,45,13,10] ||
        ((45 :: 45 :: x :: r).isPrefixOf [45,13,10] ||
          ((45 :: 45 :: x :: r).isPrefixOf [13,10] ||
            ((45 :: 45 :: x :: r).isPrefixOf [10] ||
              occursIn (45 :: 45 :: x :: r) ([] : List Nat))))) := rfl
  rw [e]
  simp [List.isPrefixOf, h13, occursIn]

theorem parseSegment_nil (acc : FormAcc) : parseSegment acc [] = acc := by
  unfold parseSegment
  rw [if_pos rfl]

theorem parseSegment_tailMarker (acc : FormAcc) :
    parseSegment acc (asciiB "--\r\n") = acc := by
  unfold parseSegment
  rw [if_neg (by decide), if_pos (Or.inl rfl)]

theorem flatMap_sep_blocks (sep : List Nat) (parts : List Part) :
    (parts.flatMap fun p => sep ++ partBlock p) =
      ((parts.map partBlock).flatMap fun bl => sep ++ bl) := by
  induction parts with
  | nil => rfl
  | cons p ps ih => simp only [List.flatMap_cons, List.map_cons, ih]

theorem foldl_parseSegment_map (parts : List Part)
    (hw : ∀ p ∈ parts, wfPart p) :
    ∀ init : FormAcc,
      (parts.map partBlock).foldl parseSegment init =
        parts.foldl expectedStep init := by
  induction parts with
  | nil => intro init; rfl
  | cons p ps ih =>
    intro init
    simp only [List.map_cons, List.foldl_cons]
    rw [parseSegment_partBlock init (hw p (List.mem_cons_self _ _)),
      ih (fun q hq => hw q (List.mem_cons_of_mem _ hq))]

/-- Claim C8: for every multipart/form-data body built over a valid boundary
token from parts whose header fields are well-formed and whose blocks do not
contain the boundary separator, `_parse_multipart_form` classifies each part
exactly as specified: a part with a non-empty filename becomes a file entry
carrying that filename, the declared Content-Type (defaulting to
`application/octet-stream` when absent), and the exact content bytes; a part
without a filename, or with an empty-string filename, becomes a text form
field whose value is the content decoded as UTF-8 with invalid bytes
replaced. -/
theorem multipartPartsClassifiedByFilename (b : Str) (parts : List Part)
    (hb : wfBoundary b) (hw : ∀ p ∈ parts, wfPart p)
    (hfree : ∀ p ∈ parts,
      occursIn (utf8Encode ("--".data ++ b))
        (partBlock p ++ (utf8Encode ("--".data ++ b)).dropLast) = false) :
    _parse_multipart_form ("multipart/form-data; boundary=".data ++ b)
        (buildBody b parts) =
      parts.foldl expectedStep ([], []) := by
  have hbne : b ≠ [] := hb.1
  have hbc := hb.2
  have hsep := sepBytes_eq hb
  rw [hsep] at hfree
  unfold _parse_multipart_form buildBody
  rw [extractBoundary_eq hb]
  rw [if_neg hbne]
  dsimp only
  rw [hsep, List.append_assoc, flatMap_sep_blocks]
  have hT : occursIn (45 :: 45 :: b.map Char.toNat) (asciiB "--\r\n") = false := by
    cases hbcase : b with
    | nil => exact absurd hbcase hbne
    | cons c0 b' =>
      have h13 : (c0.toNat == 13) = false := by
        rw [beq_eq_false_iff_ne]
        intro he
        have h2 := eq_ofNat_of_toNat_eq he
        rw [show Char.ofNat 13 = '\r' by decide] at h2
        exact (hbc c0 (by rw [hbcase]; exact List.mem_cons_self _ _)).2.2.2.2.1 h2
      rw [List.map_cons]
      exact tail_sepfree_gen h13
  have hfree' : ∀ bl ∈ parts.map partBlock,
      occursIn (45 :: 45 :: b.map Char.toNat)
        (bl ++ (45 :: 45 :: b.map Char.toNat).dropLast) = false := by
    intro bl hbl
    obtain ⟨p, hp, hrw⟩ := List.mem_map.mp hbl
    rw [← hrw]
    exact hfree p hp
  rw [pysplit_framed (List.cons_ne_nil _ _) hT (parts.map partBlock) hfree']
  rw [List.foldl_cons, parseSegment_nil, List.foldl_append,
    foldl_parseSegment_map parts hw]
  simp only [List.foldl_cons, List.foldl_nil]
  rw [parseSegment_tailMarker]

/-- Witness for C8 at a concrete two-part body over boundary `XyZ`: a text
field `title` and a file field `up` with filename, content type, and raw
(non-UTF-8) content bytes. -/
theorem multipartPartsClassifiedByFilename_witness :
    _parse_multipart_form ("multipart/form-data; boundary=".data ++ "XyZ".data)
        (buildBody "XyZ".data
          [⟨"title".data, none, none, asciiB "Hello!"⟩,
           ⟨"up".data, some "a.bin".data, some "text/plain".data, [0, 1, 255]⟩]) =
      ([("title".data, "Hello!".data)],
       [("up".data, ⟨"a.bin".data, "text/plain".data, [0, 1, 255]⟩)]) :=
  (multipartPartsClassifiedByFilename "XyZ".data
      [⟨"title".data, none, none, asciiB "Hello!"⟩,
       ⟨"up".data, some "a.bin".data, some "text/plain".data, [0, 1, 255]⟩]
      (by decide) (by decide) (by decide)).trans (by decide)

end HttpTypes
